import Mathlib

/-!
# go_proxy_server: the per-connection protocol handler

A shallow embedding of `server/conn.go` and `server/server.go`.

Go strings are byte sequences, so a string is a list of bytes.  Functions of
the Go standard library that the handler calls (`strings.Index`,
`strings.Split`, `strings.EqualFold`, `base64.StdEncoding`, `net/url`,
`textproto.MIMEHeader.Get`) are modelled after their documented behaviour.
A run-time panic (slice bounds out of range) is `none`.
-/

namespace GoProxy

/-! ## Strings -/

abbrev Byte := Fin 256

abbrev GoString := List Byte

/-- The byte of an ASCII character. -/
def byteOfChar (c : Char) : Byte := Fin.ofNat c.toNat

/-- A Go string literal; every literal of the program is ASCII. -/
def str (s : String) : GoString := s.toList.map byteOfChar

/-- The space byte. -/
def SP : Byte := 32

/-- The colon byte. -/
def COLON : Byte := 58

/-- Go `strings.Index(s, sep)`: the index of the first instance of `sep` in
`s`, or `-1` when there is none. -/
def stringsIndex (s sep : GoString) : Int :=
  match s with
  | [] => if sep = [] then 0 else -1
  | c :: t =>
    if sep.isPrefixOf (c :: t) then 0
    else
      let r := stringsIndex t sep
      if r < 0 then -1 else r + 1

/-- Go `s[lo:]`; `none` is the slice-bounds panic. -/
def sliceFrom (s : GoString) (lo : Int) : Option GoString :=
  if 0 ≤ lo ∧ lo ≤ s.length then some (s.drop lo.toNat) else none

/-- Go `s[:hi]`; `none` is the slice-bounds panic. -/
def sliceTo (s : GoString) (hi : Int) : Option GoString :=
  if 0 ≤ hi ∧ hi ≤ s.length then some (s.take hi.toNat) else none

/-- Go `s[lo:hi]`; `none` is the slice-bounds panic. -/
def slice (s : GoString) (lo hi : Int) : Option GoString :=
  if 0 ≤ lo ∧ lo ≤ hi ∧ hi ≤ s.length then some ((s.take hi.toNat).drop lo.toNat) else none

/-! ## conn.go: parseRequestLine -/

/-- The four results of `parseRequestLine`. -/
structure RequestLine where
  method : GoString
  requestURI : GoString
  proto : GoString
  ok : Bool
  deriving DecidableEq, Repr

/-- Go `parseRequestLine` (conn.go). The named results are zero-valued at the
bare `return`. -/
def parseRequestLine (line : GoString) : Option RequestLine := do
  let s1 := stringsIndex line (str " ")
  let rest ← sliceFrom line (s1 + 1)
  let s2 := stringsIndex rest (str " ")
  if s1 < 0 ∨ s2 < 0 then
    return { method := [], requestURI := [], proto := [], ok := false }
  let s2 := s2 + (s1 + 1)
  let method ← sliceTo line s1
  let requestURI ← slice line (s1 + 1) s2
  let proto ← sliceFrom line (s2 + 1)
  return { method := method, requestURI := requestURI, proto := proto, ok := true }

/-! ## Standard library: strings.Split, strings.EqualFold, base64 -/

/-- The loop of Go `strings.Count(s, sep)` for a non-empty `sep`: the number
of non-overlapping instances of `sep`. The first argument bounds the number of
iterations; each one consumes at least one byte, so `len(s)` suffices. -/
def countLoop (sep : GoString) : Nat → GoString → Nat
  | 0, _ => 0
  | k + 1, s =>
    let i := stringsIndex s sep
    if i < 0 then 0 else 1 + countLoop sep k (s.drop (i.toNat + sep.length))

/-- Go `strings.Count(s, sep)` for a non-empty `sep`, as at every call. -/
def stringsCount (s sep : GoString) : Nat := countLoop sep s.length s

/-- The loop `for i < n` of Go `genSplit` with `sepSave = 0`, after `n--`; the
first argument is the number of iterations left, `n - i`. -/
def genSplitLoop (sep : GoString) : Nat → GoString → List GoString
  | 0, s => [s]
  | n + 1, s =>
    let m := stringsIndex s sep
    if m < 0 then [s]
    else s.take m.toNat :: genSplitLoop sep n (s.drop (m.toNat + sep.length))

/-- Go `strings.Split(s, sep)` for a non-empty `sep` (the program splits at
`" "`): `genSplit(s, sep, 0, -1)`, where `n = Count(s, sep) + 1`, capped at
`len(s) + 1`, and the loop runs `n - 1` times at most. -/
def stringsSplit (s sep : GoString) : List GoString :=
  genSplitLoop sep (min (stringsCount s sep + 1) (s.length + 1) - 1) s

/-- Go `utf8.RuneError`. -/
def RuneError : Nat := 0xFFFD

/-- Go `utf8.first` with `utf8.acceptRanges`: for the leading byte of a
multi-byte sequence, its length and the accepted range of the second byte. -/
def utf8First (b : Nat) : Option (Nat × Nat × Nat) :=
  if 0xC2 ≤ b ∧ b ≤ 0xDF then some (2, 0x80, 0xBF)
  else if b = 0xE0 then some (3, 0xA0, 0xBF)
  else if 0xE1 ≤ b ∧ b ≤ 0xEC then some (3, 0x80, 0xBF)
  else if b = 0xED then some (3, 0x80, 0x9F)
  else if 0xEE ≤ b ∧ b ≤ 0xEF then some (3, 0x80, 0xBF)
  else if b = 0xF0 then some (4, 0x90, 0xBF)
  else if 0xF1 ≤ b ∧ b ≤ 0xF3 then some (4, 0x80, 0xBF)
  else if b = 0xF4 then some (4, 0x80, 0x8F)
  else none

/-- Go `utf8.DecodeRuneInString`: the first rune of `s` and its width in
bytes; an invalid encoding is `(RuneError, 1)`, the empty string
`(RuneError, 0)`. -/
def decodeRune (s : GoString) : Nat × Nat :=
  match s with
  | [] => (RuneError, 0)
  | s0 :: t =>
    if s0.val < 0x80 then (s0.val, 1)
    else
      match utf8First s0.val with
      | none => (RuneError, 1)
      | some (sz, lo, hi) =>
        if s.length < sz then (RuneError, 1)
        else
          match t with
          | [] => (RuneError, 1)
          | s1 :: t1 =>
            if s1.val < lo ∨ hi < s1.val then (RuneError, 1)
            else if sz ≤ 2 then ((s0.val % 32) * 64 + s1.val % 64, 2)
            else
              match t1 with
              | [] => (RuneError, 1)
              | s2 :: t2 =>
                if s2.val < 0x80 ∨ 0xBF < s2.val then (RuneError, 1)
                else if sz ≤ 3 then
                  ((s0.val % 16) * 4096 + (s1.val % 64) * 64 + s2.val % 64, 3)
                else
                  match t2 with
                  | [] => (RuneError, 1)
                  | s3 :: _ =>
                    if s3.val < 0x80 ∨ 0xBF < s3.val then (RuneError, 1)
                    else
                      ((s0.val % 8) * 262144 + (s1.val % 64) * 4096
                        + (s2.val % 64) * 64 + s3.val % 64, 4)

/-- The runes of a string, as `for _, r := range s` yields them; the first
argument bounds the loop. -/
def runesLoop : Nat → GoString → List Nat
  | 0, _ => []
  | k + 1, s =>
    if s = [] then []
    else (decodeRune s).1 :: runesLoop k (s.drop (decodeRune s).2)

/-- The runes of a string. -/
def runes (s : GoString) : List Nat := runesLoop s.length s

/-- The orbit of a rune under Go `unicode.SimpleFold`, for every orbit that
holds an ASCII rune: the two cases of a letter, with the Kelvin sign U+212A
beside `K`, `k` and the long s U+017F beside `S`, `s`.  A rune outside these
orbits is taken as its own orbit, so the folding of two non-ASCII runes onto
each other is not modelled; the comparison is exact when one side is ASCII. -/
def foldOrbit (r : Nat) : List Nat :=
  if r = 0x4B ∨ r = 0x6B ∨ r = 0x212A then [0x4B, 0x6B, 0x212A]
  else if r = 0x53 ∨ r = 0x73 ∨ r = 0x17F then [0x53, 0x73, 0x17F]
  else if 0x41 ≤ r ∧ r ≤ 0x5A then [r, r + 32]
  else if 0x61 ≤ r ∧ r ≤ 0x7A then [r - 32, r]
  else [r]

/-- Rune by rune comparison under case folding. -/
def equalFoldRunes : List Nat → List Nat → Bool
  | [], [] => true
  | a :: as, b :: bs => decide (b ∈ foldOrbit a) && equalFoldRunes as bs
  | _, _ => false

/-- Go `strings.EqualFold(s, t)`: whether `s` and `t`, read as UTF-8, are
equal under simple Unicode case folding. -/
def stringsEqualFold (s t : GoString) : Bool := equalFoldRunes (runes s) (runes t)

/-- The alphabet of Go `base64.StdEncoding`. -/
def encodeStd : GoString :=
  str "ABCDEFGHIJKLMNOPQRSTUVWXYZabcdefghijklmnopqrstuvwxyz0123456789+/"

/-- The character `enc.encode[i & 0x3F]`. -/
def encodeChar (i : Nat) : Byte := encodeStd.getD (i % 64) 0

/-- Go `base64.StdPadding`, the character `=`. -/
def padChar : Byte := 61

/-- Go `base64.StdEncoding.EncodeToString`: three bytes give four
characters, a remainder of one or two bytes is padded with `=`. -/
def base64Encode : GoString → GoString
  | [] => []
  | [a] =>
    let val := a.val * 65536
    [encodeChar (val / 262144), encodeChar (val / 4096), padChar, padChar]
  | [a, b] =>
    let val := a.val * 65536 + b.val * 256
    [encodeChar (val / 262144), encodeChar (val / 4096), encodeChar (val / 64), padChar]
  | a :: b :: c :: rest =>
    let val := a.val * 65536 + b.val * 256 + c.val
    encodeChar (val / 262144) :: encodeChar (val / 4096) :: encodeChar (val / 64)
      :: encodeChar val :: base64Encode rest

/-! ## server.go -/

/-- The configuration fields of Go `Server`; the listener is not modelled. -/
structure Server where
  addr : GoString
  credential : GoString
  deriving DecidableEq, Repr

/-- Go `New`. `RandStringBytesMaskImprSrc` is not part of the sources at
hand: `randStr i n` stands for the result of its `i`-th call with length
`n`. -/
def New (randStr : Nat → Nat → GoString) (Addr credential : GoString) (genAuth : Bool) :
    Server :=
  let credential :=
    if genAuth then randStr 0 16 ++ str ":" ++ randStr 1 16 else credential
  { addr := Addr, credential := base64Encode credential }

/-- Go `Server.isAuth`. -/
def Server.isAuth (s : Server) : Bool := s.credential != []

/-- Go `Server.validateCredential`. The two index expressions are guarded by
`len(c) == 2`, so they are in range where they are evaluated. -/
def Server.validateCredential (s : Server) (basicCredential : GoString) : Bool :=
  let c := stringsSplit basicCredential (str " ")
  if c.length = 2 && stringsEqualFold (c.getD 0 []) (str "Basic")
      && c.getD 1 [] == s.credential then
    true
  else
    false

/-- The procedure of the specification for validating a presented
credential: split it at its first space into two tokens; accept exactly
when both tokens exist, the first equals `Basic` ignoring case and the
second, everything after the first space, equals the stored credential. -/
def validateCredentialSpec (stored presented : GoString) : Bool :=
  let i := stringsIndex presented (str " ")
  if i < 0 then false
  else
    stringsEqualFold (presented.take i.toNat) (str "Basic")
      && presented.drop (i.toNat + 1) == stored

/-! ## Standard library: net/url, restricted to what `ParseRequestURI` computes -/

/-- The errors of Go `net/url` that `ParseRequestURI` can return. -/
inductive UrlError
  | invalidControlCharacter
  | emptyURL
  | missingProtocolScheme
  | invalidURIForRequest
  | firstPathSegmentColon
  | missingBracket
  | invalidPort (colonPort : GoString)
  | escapeError (s : GoString)
  | invalidHostError (s : GoString)
  | invalidUserinfo
  deriving DecidableEq, Repr

deriving instance DecidableEq for Except

/-- The fields of Go `url.URL` that `parse` fills; `User`, `RawPath` and
`OmitHost` are left out. -/
structure URL where
  Scheme : GoString := []
  Opaque : GoString := []
  Host : GoString := []
  Path : GoString := []
  RawQuery : GoString := []
  ForceQuery : Bool := false
  deriving DecidableEq, Repr

/-- Go `strings.LastIndex(s, sep)`. -/
def stringsLastIndex (s sep : GoString) : Int :=
  match s with
  | [] => if sep = [] then 0 else -1
  | c :: t =>
    let r := stringsLastIndex t sep
    if 0 ≤ r then r + 1 else if sep.isPrefixOf (c :: t) then 0 else -1

/-- Go `strings.HasPrefix`. -/
def stringsHasPrefix (s pre : GoString) : Bool := pre.isPrefixOf s

/-- Go `strings.HasSuffix`. -/
def stringsHasSuffix (s suf : GoString) : Bool := suf.isSuffixOf s

/-- Go `strings.Cut(s, sep)`, without its `found` result. -/
def stringsCut (s sep : GoString) : GoString × GoString :=
  let i := stringsIndex s sep
  if 0 ≤ i then (s.take i.toNat, s.drop (i.toNat + sep.length)) else (s, [])

/-- Go `strings.ToLower` on an ASCII string (a scheme is ASCII). -/
def asciiToLower (s : GoString) : GoString :=
  s.map fun c => if 65 ≤ c.val ∧ c.val ≤ 90 then Fin.ofNat (c.val + 32) else c

def isAlpha (c : Byte) : Bool := (97 ≤ c.val && c.val ≤ 122) || (65 ≤ c.val && c.val ≤ 90)

def isDigit (c : Byte) : Bool := 48 ≤ c.val && c.val ≤ 57

/-- Go `url.stringContainsCTLByte`. -/
def stringContainsCTLByte (s : GoString) : Bool := s.any fun b => b.val < 32 || b.val = 127

/-- Go `url.ishex`. -/
def ishex (c : Byte) : Bool :=
  isDigit c || (97 ≤ c.val && c.val ≤ 102) || (65 ≤ c.val && c.val ≤ 70)

/-- Go `url.unhex`. -/
def unhex (c : Byte) : Nat :=
  if isDigit c then c.val - 48
  else if 97 ≤ c.val ∧ c.val ≤ 102 then c.val - 97 + 10
  else if 65 ≤ c.val ∧ c.val ≤ 70 then c.val - 65 + 10
  else 0

/-- Go `url.shouldEscape(c, encodeHost)`. -/
def shouldEscapeHost (c : Byte) : Bool :=
  if isAlpha c || isDigit c then false
  else if c ∈ str "!$&'()*+,;=:[]<>\"" then false
  else if c ∈ str "-_.~" then false
  else true

/-- The modes of Go `url.unescape` that `parse` uses. -/
inductive Encoding
  | encodePath
  | encodeHost
  | encodeZone
  | encodeUserPassword
  deriving DecidableEq, Repr

/-- Go `url.unescape(s, mode)`: the check of the string and the decoding of
its `%XX` escapes, in one pass. -/
def unescape (mode : Encoding) : GoString → Except UrlError GoString
  | [] => .ok []
  | c :: t =>
    if c = 37 then
      match t with
      | h1 :: h2 :: t2 =>
        if !ishex h1 || !ishex h2 then .error (.escapeError ((c :: t).take 3))
        else if mode = .encodeHost ∧ unhex h1 < 8 ∧ [c, h1, h2] ≠ str "%25" then
          .error (.escapeError [c, h1, h2])
        else if mode = .encodeZone ∧ [c, h1, h2] ≠ str "%25"
            ∧ unhex h1 * 16 + unhex h2 ≠ 32
            ∧ shouldEscapeHost (Fin.ofNat (unhex h1 * 16 + unhex h2)) then
          .error (.escapeError [c, h1, h2])
        else
          match unescape mode t2 with
          | .error e => .error e
          | .ok r => .ok (Fin.ofNat (unhex h1 * 16 + unhex h2) :: r)
      | _ => .error (.escapeError ((c :: t).take 3))
    else if (mode = .encodeHost ∨ mode = .encodeZone) ∧ c.val < 128 ∧ shouldEscapeHost c then
      .error (.invalidHostError [c])
    else
      match unescape mode t with
      | .error e => .error e
      | .ok r => .ok (c :: r)

/-- The loop of Go `url.getScheme`; `i` is the index of the head of the third
argument in `rawURL`. -/
def getSchemeLoop (rawURL : GoString) (i : Nat) :
    GoString → Except UrlError (GoString × GoString)
  | [] => .ok ([], rawURL)
  | c :: t =>
    if isAlpha c then getSchemeLoop rawURL (i + 1) t
    else if isDigit c || c = 43 || c = 45 || c = 46 then
      if i = 0 then .ok ([], rawURL) else getSchemeLoop rawURL (i + 1) t
    else if c = 58 then
      if i = 0 then .error .missingProtocolScheme
      else .ok (rawURL.take i, rawURL.drop (i + 1))
    else .ok ([], rawURL)

/-- Go `url.getScheme`. -/
def getScheme (rawURL : GoString) : Except UrlError (GoString × GoString) :=
  getSchemeLoop rawURL 0 rawURL

/-- Go `url.validOptionalPort`. -/
def validOptionalPort (port : GoString) : Bool :=
  match port with
  | [] => true
  | c :: t => c = 58 && t.all isDigit

/-- Go `url.validUserinfo`. -/
def validUserinfo (s : GoString) : Bool :=
  s.all fun c => isAlpha c || isDigit c || c ∈ str "-._:~!$&'()*+,;=%@"

/-- Go `url.parseHost`, as in the releases of Go that accept any text between
the brackets of a bracketed host; later releases also require an IP literal
there. The two agree on a host without brackets and on `[::1]`. -/
def parseHost (host : GoString) : Except UrlError GoString :=
  if stringsHasPrefix host (str "[") then
    let i := stringsLastIndex host (str "]")
    if i < 0 then .error .missingBracket
    else
      let colonPort := host.drop (i.toNat + 1)
      if !validOptionalPort colonPort then .error (.invalidPort colonPort)
      else
        let zone := stringsIndex (host.take i.toNat) (str "%25")
        if 0 ≤ zone then
          match unescape .encodeHost (host.take zone.toNat) with
          | .error e => .error e
          | .ok host1 =>
            match unescape .encodeZone ((host.take i.toNat).drop zone.toNat) with
            | .error e => .error e
            | .ok host2 =>
              match unescape .encodeHost (host.drop i.toNat) with
              | .error e => .error e
              | .ok host3 => .ok (host1 ++ host2 ++ host3)
        else unescape .encodeHost host
  else
    let i := stringsLastIndex host (str ":")
    if i ≠ -1 ∧ !validOptionalPort (host.drop i.toNat) then
      .error (.invalidPort (host.drop i.toNat))
    else unescape .encodeHost host

/-- Go `url.parseAuthority`, without the `User` result: the user
information is only checked. -/
def parseAuthority (authority : GoString) : Except UrlError GoString :=
  let i := stringsLastIndex authority (str "@")
  match parseHost (if i < 0 then authority else authority.drop (i.toNat + 1)) with
  | .error e => .error e
  | .ok host =>
    if i < 0 then .ok host
    else
      let userinfo := authority.take i.toNat
      if !validUserinfo userinfo then .error .invalidUserinfo
      else if stringsIndex userinfo (str ":") < 0 then
        match unescape .encodeUserPassword userinfo with
        | .error e => .error e
        | .ok _ => .ok host
      else
        match unescape .encodeUserPassword (stringsCut userinfo (str ":")).1 with
        | .error e => .error e
        | .ok _ =>
          match unescape .encodeUserPassword (stringsCut userinfo (str ":")).2 with
          | .error e => .error e
          | .ok _ => .ok host

/-- Go `url.parse(rawURL, viaRequest)`. -/
def parse (rawURL : GoString) (viaRequest : Bool) : Except UrlError URL :=
  if stringContainsCTLByte rawURL then .error .invalidControlCharacter
  else if rawURL = [] ∧ viaRequest then .error .emptyURL
  else if rawURL = str "*" then .ok { Path := str "*" }
  else
    match getScheme rawURL with
    | .error e => .error e
    | .ok (scheme, rest0) =>
      let scheme := asciiToLower scheme
      let force := stringsHasSuffix rest0 (str "?") && stringsCount rest0 (str "?") == 1
      let rest1 := if force then rest0.take (rest0.length - 1) else (stringsCut rest0 (str "?")).1
      let rawQuery := if force then [] else (stringsCut rest0 (str "?")).2
      if !stringsHasPrefix rest1 (str "/") ∧ scheme ≠ [] then
        .ok { Scheme := scheme, Opaque := rest1, RawQuery := rawQuery, ForceQuery := force }
      else if !stringsHasPrefix rest1 (str "/") ∧ viaRequest then
        .error .invalidURIForRequest
      else if !stringsHasPrefix rest1 (str "/")
          ∧ 0 ≤ stringsIndex (stringsCut rest1 (str "/")).1 (str ":") then
        .error .firstPathSegmentColon
      else if (scheme ≠ [] ∨ (!viaRequest ∧ !stringsHasPrefix rest1 (str "///")))
          ∧ stringsHasPrefix rest1 (str "//") then
        let authority0 := rest1.drop 2
        let i := stringsIndex authority0 (str "/")
        let authority := if 0 ≤ i then authority0.take i.toNat else authority0
        let rest2 := if 0 ≤ i then authority0.drop i.toNat else []
        match parseAuthority authority with
        | .error e => .error e
        | .ok host =>
          match unescape .encodePath rest2 with
          | .error e => .error e
          | .ok path =>
            .ok { Scheme := scheme, Host := host, Path := path, RawQuery := rawQuery,
                  ForceQuery := force }
      else
        match unescape .encodePath rest1 with
        | .error e => .error e
        | .ok path =>
          .ok { Scheme := scheme, Path := path, RawQuery := rawQuery, ForceQuery := force }

/-- Go `url.ParseRequestURI`. -/
def urlParseRequestURI (rawURL : GoString) : Except UrlError URL := parse rawURL true

/-- Go `URL.Port`: the port of `Host`, without the colon; empty when `Host`
has no valid port. -/
def URL.Port (u : URL) : GoString :=
  let colon := stringsLastIndex u.Host (str ":")
  if colon ≠ -1 ∧ validOptionalPort (u.Host.drop colon.toNat) then
    u.Host.drop (colon.toNat + 1)
  else []

/-! ## conn.go -/

/-- The errors the handler meets. -/
inductive GoError
  | io (msg : GoString)
  | badRequest (something : GoString)
  | url (e : UrlError)
  deriving DecidableEq, Repr

/-- Go `textproto.MIMEHeader`, a `map[string][]string`: the entries, each key
once, in the order in which `range` visits them in the run at hand. -/
abbrev MIMEHeader := List (GoString × List GoString)

/-- Go `MIMEHeader.Get(key)` for a key in canonical form, as
`Proxy-Authorization` and `Host` are: the first value stored under the key,
or the empty string. -/
def MIMEHeader.Get (h : MIMEHeader) (key : GoString) : GoString :=
  match h.lookup key with
  | some (v :: _) => v
  | _ => []

/-- Go `bytes.Buffer.WriteString`. -/
def writeString (buf s : GoString) : GoString := buf ++ s

/-- Go `fmt.Sprintf("%s:%s\r\n", k, v)`. -/
def sprintfHeader (k v : GoString) : GoString := k ++ str ":" ++ v ++ str "\r\n"

/-- What the world outside the handler answers during one connection: the
outcome of `tp.ReadLine()`, of `tp.ReadMIMEHeader()`, of
`url.ParseRequestURI`, of the write to the client, of `net.Dial` and of the
write to the origin (`none`: no error), and the client address. -/
structure Env where
  readLine : Except GoError GoString
  readMIMEHeader : Except GoError MIMEHeader
  parseRequestURI : GoString → Except UrlError URL
  clientWriteErr : Option GoError
  dialErr : Option GoError
  remoteWriteErr : Option GoError
  remoteAddr : GoString

/-- The five results of `getTunnelInfo`. -/
structure TunnelInfo where
  rawRequestHeader : GoString := []
  host : GoString := []
  credential : GoString := []
  isHTTPS : Bool := false
  err : Option GoError := none
  deriving DecidableEq, Repr

/-- The two nested `range` loops of `getTunnelInfo` that write the header
lines into the buffer. -/
def writeHeaders (buf : GoString) (mimeHeader : MIMEHeader) : GoString :=
  mimeHeader.foldl
    (fun buf kvs => kvs.2.foldl (fun buf v => writeString buf (sprintfHeader kvs.1 v)) buf)
    buf

/-- Go `conn.getTunnelInfo`; the receiver's reader `brc` is the environment.
The results are named, so a bare `return` gives back what has been assigned
so far; `none` is a panic. -/
def getTunnelInfo (env : Env) : Option TunnelInfo :=
  match env.readLine with
  | .error e => some { err := some e }
  | .ok requestLine =>
    match parseRequestLine requestLine with
    | none => none
    | some rl =>
      if !rl.ok then
        some { err := some (.badRequest (str "malformed HTTP request")) }
      else
        let isHTTPS := if rl.method = str "CONNECT" then true else false
        let requestURI :=
          if rl.method = str "CONNECT" then str "http://" ++ rl.requestURI else rl.requestURI
        match env.parseRequestURI requestURI with
        | .error e => some { isHTTPS := isHTTPS, err := some (.url e) }
        | .ok uriInfo =>
          match env.readMIMEHeader with
          | .error e => some { isHTTPS := isHTTPS, err := some e }
          | .ok mimeHeader =>
            let credential := mimeHeader.Get (str "Proxy-Authorization")
            let host :=
              if uriInfo.Host = [] then mimeHeader.Get (str "Host")
              else if stringsIndex uriInfo.Host (str ":") = -1 then uriInfo.Host ++ str ":80"
              else uriInfo.Host
            let raw := writeString [] (requestLine ++ str "\r\n")
            let raw := writeHeaders raw mimeHeader
            let raw := writeString raw (str "\r\n")
            some { rawRequestHeader := raw, host := host, credential := credential,
                   isHTTPS := isHTTPS, err := none }

/-- What the handler does to the outside, in order. A log event holds the
arguments of the call of the logger; `logErrorOf err` is
`log.Error(err.Error())`. -/
inductive Event
  | clientWrite (data : GoString)
  | clientClose
  | dial (network address : GoString)
  | remoteWrite (data : GoString)
  | tunnel
  | logError (msg : GoString)
  | logErrorOf (err : GoError)
  | logInfo (args : List GoString)
  | panic
  deriving DecidableEq, Repr

/-- The response `conn.auth` writes on a failed authentication. -/
def response407 : GoString :=
  str "HTTP/1.1 407 Proxy Authentication Required\r\nProxy-Authenticate: Basic realm=\"*\"\r\n\r\n"

/-- The response `conn.serve` writes to a CONNECT client. -/
def response200 : GoString := str "HTTP/1.1 200 Connection established\r\n\r\n"

/-- Go `conn.auth`: the result and what it did. The receiver is given by its
`server` and, for `rwc`, by the environment. -/
def auth (server : Server) (env : Env) (credential : GoString) : Bool × List Event :=
  if server.isAuth == false || server.validateCredential credential then (true, [])
  else
    (false,
      Event.clientWrite response407 ::
        (match env.clientWriteErr with
         | some e => [Event.logErrorOf e]
         | none => []))

/-- Go `conn.serve`: what the handler does on one connection. The receiver is
given by its `server` and, for `rwc` and `brc`, by the environment. The
tunnel, two concurrent copies, is one event; the deferred `c.rwc.Close()` ends
every run. -/
def serve (server : Server) (env : Env) : List Event :=
  (match getTunnelInfo env with
   | none => [Event.panic]
   | some info =>
     match info.err with
     | some e => [Event.logErrorOf e]
     | none =>
       if (auth server env info.credential).1 == false then
         (auth server env info.credential).2
           ++ [Event.logError (str "Auth fail: " ++ info.credential)]
       else
         (auth server env info.credential).2
           ++ [Event.logInfo [str "connecting to " ++ info.host],
               Event.dial (str "tcp") info.host]
           ++ (match env.dialErr with
               | some e => [Event.logErrorOf e]
               | none =>
                 let tunnelEvents :=
                   [Event.logInfo [str "begin tunnel", env.remoteAddr, str "<->", info.host],
                    Event.tunnel,
                    Event.logInfo [str "stop tunnel", env.remoteAddr, str "<->", info.host]]
                 if info.isHTTPS then
                   Event.clientWrite response200 ::
                     (match env.clientWriteErr with
                      | some e => [Event.logErrorOf e]
                      | none => tunnelEvents)
                 else
                   Event.remoteWrite info.rawRequestHeader ::
                     (match env.remoteWriteErr with
                      | some e => [Event.logErrorOf e]
                      | none => tunnelEvents)))
    ++ [Event.clientClose]

/-- The lines `K:V\r\n` of a header map, one for each value stored under each
key, in the order of the map and, under one key, of its values. -/
def headerLines (h : MIMEHeader) : List GoString :=
  h.flatMap fun kvs => kvs.2.map fun v => kvs.1 ++ str ":" ++ v ++ str "\r\n"

/-- The environment of a request read whole, with the model of `net/url`
and no failure of a write or of the dial. -/
def requestEnv (line : GoString) (header : MIMEHeader) : Env :=
  { readLine := .ok line, readMIMEHeader := .ok header,
    parseRequestURI := urlParseRequestURI, clientWriteErr := none, dialErr := none,
    remoteWriteErr := none, remoteAddr := str "192.0.2.1:50000" }

/-- A byte of a plain host name: a letter, a digit, `-` or `.`. -/
def isHostNameByte (c : Byte) : Bool := isAlpha c || isDigit c || c = 45 || c = 46

/-- All the strings made of one string of each list, in order. -/
def concatChoices : List (List GoString) → List GoString
  | [] => [[]]
  | cs :: rest => cs.flatMap fun c => (concatChoices rest).map fun t => c ++ t

/-- The case forms of the five letters of `Basic`, as UTF-8: the capital and
the small letter, and for `s` also the long s U+017F, the bytes `C5 BF`,
a small letter whose capital is `S`. -/
def caseFormsOfBasic : List (List GoString) :=
  [[str "B", str "b"], [str "A", str "a"], [str "S", str "s", [0xC5, 0xBF]],
   [str "I", str "i"], [str "C", str "c"]]

/-- The strings that equal `Basic` ignoring case: every choice of a case form
for each of its letters. -/
def basicIgnoringCase : List GoString := concatChoices caseFormsOfBasic

/-! ## The models of the standard library on known values -/

theorem base64Encode_user_pass : base64Encode (str "user:pass") = str "dXNlcjpwYXNz" := by
  decide

theorem base64Encode_padding :
    base64Encode (str "a") = str "YQ==" ∧ base64Encode (str "ab") = str "YWI=" := by
  decide

theorem stringsSplit_known :
    stringsSplit (str "Basic dXNlcjpwYXNz") (str " ") = [str "Basic", str "dXNlcjpwYXNz"]
      ∧ stringsSplit (str " a  b ") (str " ") = [[], str "a", [], str "b", []]
      ∧ stringsSplit [] (str " ") = [[]] := by
  decide

theorem stringsEqualFold_known :
    stringsEqualFold (str "bAsIc") (str "Basic") = true
      ∧ stringsEqualFold [66, 97, 0xC5, 0xBF, 105, 99] (str "Basic") = true
      ∧ stringsEqualFold (str "Basi") (str "Basic") = false
      ∧ runes [0xE2, 0x84, 0xAA, 0xFF, 0x41] = [0x212A, 0xFFFD, 0x41] := by
  decide

set_option maxRecDepth 8192 in
theorem urlParseRequestURI_known :
    (urlParseRequestURI (str "http://example.org/")).map (fun u => u.Host)
        = .ok (str "example.org")
      ∧ (urlParseRequestURI (str "http://example.org:443")).map (fun u => u.Host)
        = .ok (str "example.org:443")
      ∧ (urlParseRequestURI (str "/index.html")).map (fun u => u.Host) = .ok []
      ∧ urlParseRequestURI (str "example.org:443")
        = .ok { Scheme := str "example.org", Opaque := str "443" }
      ∧ (urlParseRequestURI (str "http://u:p@[::1]:8080/a%20b?x=1")).map
          (fun u => (u.Host, u.Path, u.RawQuery))
        = .ok (str "[::1]:8080", str "/a b", str "x=1")
      ∧ urlParseRequestURI (str "index.html") = .error .invalidURIForRequest
      ∧ urlParseRequestURI (str "http://a b/") = .error (.invalidHostError (str " ")) := by
  decide

/-! ## Lemmas on strings -/

theorem str_space : str " " = [SP] := by decide

theorem str_colon : str ":" = [COLON] := by decide

theorem stringsIndex_single_cons (b c : Byte) (t : GoString) :
    stringsIndex (c :: t) [b] =
      if b = c then 0 else if stringsIndex t [b] < 0 then -1 else stringsIndex t [b] + 1 := by
  simp [stringsIndex, List.isPrefixOf]

theorem stringsIndex_single_nil (b : Byte) : stringsIndex [] [b] = -1 := by
  simp [stringsIndex]

theorem stringsIndex_not_mem (b : Byte) (s : GoString) (h : b ∉ s) :
    stringsIndex s [b] = -1 := by
  induction s with
  | nil => exact stringsIndex_single_nil b
  | cons c t ih =>
    simp only [List.mem_cons, not_or] at h
    rw [stringsIndex_single_cons, if_neg h.1, ih h.2]
    simp

theorem stringsIndex_first (b : Byte) (l r : GoString) (h : b ∉ l) :
    stringsIndex (l ++ b :: r) [b] = l.length := by
  induction l with
  | nil => simp [stringsIndex_single_cons]
  | cons c t ih =>
    simp only [List.mem_cons, not_or] at h
    rw [List.cons_append, stringsIndex_single_cons, if_neg h.1, ih h.2]
    have : ¬ ((t.length : Int) < 0) := by omega
    simp [this]

/-- Every string either lacks the byte or splits at its first occurrence. -/
theorem first_occurrence (b : Byte) (s : GoString) :
    b ∉ s ∨ ∃ l r, s = l ++ b :: r ∧ b ∉ l := by
  induction s with
  | nil => left; simp
  | cons c t ih =>
    by_cases hc : b = c
    · right; exact ⟨[], t, by simp [hc], by simp⟩
    · rcases ih with h | ⟨l, r, rfl, hl⟩
      · left; simp [hc, h]
      · right; exact ⟨c :: l, r, by simp, by simp [hc, hl]⟩

theorem sliceFrom_nat (s : GoString) (n : Nat) (h : n ≤ s.length) :
    sliceFrom s (n : Int) = some (s.drop n) := by
  have h2 : (n : Int) ≤ (s.length : Int) := by exact_mod_cast h
  simp [sliceFrom, h2]

theorem sliceTo_nat (s : GoString) (n : Nat) (h : n ≤ s.length) :
    sliceTo s (n : Int) = some (s.take n) := by
  have h2 : (n : Int) ≤ (s.length : Int) := by exact_mod_cast h
  simp [sliceTo, h2]

theorem slice_nat (s : GoString) (lo hi : Nat) (h1 : lo ≤ hi) (h2 : hi ≤ s.length) :
    slice s (lo : Int) (hi : Int) = some ((s.take hi).drop lo) := by
  have h3 : (lo : Int) ≤ (hi : Int) := by exact_mod_cast h1
  have h4 : (hi : Int) ≤ (s.length : Int) := by exact_mod_cast h2
  simp [slice, h3, h4]

/-! ## parseRequestLine on the three shapes of a line -/

theorem parseRequestLine_no_space (line : GoString) (h : SP ∉ line) :
    parseRequestLine line
      = some { method := [], requestURI := [], proto := [], ok := false } := by
  have e : sliceFrom line 0 = some line := by
    simpa using sliceFrom_nat line 0 (Nat.zero_le _)
  simp [parseRequestLine, str_space, stringsIndex_not_mem SP line h, e]

theorem parseRequestLine_one_space (l r : GoString) (hl : SP ∉ l) (hr : SP ∉ r) :
    parseRequestLine (l ++ SP :: r)
      = some { method := [], requestURI := [], proto := [], ok := false } := by
  have e : sliceFrom (l ++ SP :: r) ((l.length : Int) + 1) = some r := by
    have := sliceFrom_nat (l ++ SP :: r) (l.length + 1) (by simp)
    simpa using this
  simp [parseRequestLine, str_space, stringsIndex_first SP l r hl, e,
    stringsIndex_not_mem SP r hr]

theorem parseRequestLine_two_spaces (l m r : GoString) (hl : SP ∉ l) (hm : SP ∉ m) :
    parseRequestLine (l ++ SP :: (m ++ SP :: r))
      = some { method := l, requestURI := m, proto := r, ok := true } := by
  have e1 : sliceFrom (l ++ SP :: (m ++ SP :: r)) ((l.length : Int) + 1)
      = some (m ++ SP :: r) := by
    have := sliceFrom_nat (l ++ SP :: (m ++ SP :: r)) (l.length + 1) (by simp)
    simpa using this
  have e2 : sliceTo (l ++ SP :: (m ++ SP :: r)) (l.length : Int) = some l := by
    have := sliceTo_nat (l ++ SP :: (m ++ SP :: r)) l.length (by simp)
    simpa using this
  have e3 : slice (l ++ SP :: (m ++ SP :: r)) ((l.length : Int) + 1)
      ((m.length : Int) + ((l.length : Int) + 1)) = some m := by
    have := slice_nat (l ++ SP :: (m ++ SP :: r)) (l.length + 1) (m.length + (l.length + 1))
      (by omega) (by simp; omega)
    rw [show ((l.length : Int) + 1) = ((l.length + 1 : Nat) : Int) by push_cast; rfl,
      show ((m.length : Int) + ((l.length + 1 : Nat) : Int))
        = ((m.length + (l.length + 1) : Nat) : Int) by push_cast; rfl, this]
    have t : List.take (m.length + (l.length + 1)) (l ++ SP :: (m ++ SP :: r))
        = l ++ SP :: m := by
      have a : l ++ SP :: (m ++ SP :: r) = (l ++ SP :: m) ++ (SP :: r) := by simp
      rw [a]
      exact List.take_left' (by simp; omega)
    rw [t, show l ++ SP :: m = (l ++ [SP]) ++ m by simp,
      show l.length + 1 = (l ++ [SP]).length by simp]
    simp
  have e4 : sliceFrom (l ++ SP :: (m ++ SP :: r))
      ((m.length : Int) + ((l.length : Int) + 1) + 1) = some r := by
    have := sliceFrom_nat (l ++ SP :: (m ++ SP :: r)) (m.length + (l.length + 1) + 1)
      (by simp; omega)
    rw [show ((m.length : Int) + ((l.length : Int) + 1) + 1)
        = ((m.length + (l.length + 1) + 1 : Nat) : Int) by push_cast; rfl, this,
      show l ++ SP :: (m ++ SP :: r) = (l ++ SP :: (m ++ [SP])) ++ r by simp,
      show m.length + (l.length + 1) + 1 = (l ++ SP :: (m ++ [SP])).length by simp; omega]
    simp
  have n1 : ¬ ((l.length : Int) < 0) := by omega
  have n2 : ¬ ((m.length : Int) < 0) := by omega
  simp [parseRequestLine, str_space, stringsIndex_first SP l _ hl, e1,
    stringsIndex_first SP m r hm, e2, e3, e4, n1, n2]

theorem count_eq_zero_of_not_mem (b : Byte) (s : GoString) (h : b ∉ s) : s.count b = 0 :=
  List.count_eq_zero.mpr h

/-- C1. A request line with at least two spaces is split at its first two
spaces: `ok` is true, the method is the text before the first space, the
request URI the text strictly between the first and second space, and the
protocol everything after the second space. -/
theorem parseRequestLine_splits_at_first_two_spaces (line : GoString)
    (h : 2 ≤ line.count SP) :
    ∃ m u p, parseRequestLine line
        = some { method := m, requestURI := u, proto := p, ok := true }
      ∧ SP ∉ m ∧ SP ∉ u ∧ m ++ str " " ++ u ++ str " " ++ p = line := by
  rcases first_occurrence SP line with h0 | ⟨l, t, rfl, hl⟩
  · rw [count_eq_zero_of_not_mem SP line h0] at h; omega
  · rcases first_occurrence SP t with h1 | ⟨m, r, rfl, hm⟩
    · have : (l ++ SP :: t).count SP = 1 := by
        simp [List.count_append, List.count_cons, count_eq_zero_of_not_mem SP l hl,
          count_eq_zero_of_not_mem SP t h1]
      omega
    · exact ⟨l, m, r, parseRequestLine_two_spaces l m r hl hm, hl, hm, by simp [str_space]⟩

theorem parseRequestLine_splits_at_first_two_spaces_witness :
    2 ≤ (str "GET http://example.org/ HTTP/1.1").count SP
      ∧ ∃ m u p, parseRequestLine (str "GET http://example.org/ HTTP/1.1")
          = some { method := m, requestURI := u, proto := p, ok := true }
        ∧ SP ∉ m ∧ SP ∉ u
        ∧ m ++ str " " ++ u ++ str " " ++ p = str "GET http://example.org/ HTTP/1.1" :=
  ⟨by decide, parseRequestLine_splits_at_first_two_spaces _ (by decide)⟩

/-- C2. On every line, the empty one and those without a space included,
`parseRequestLine` returns without a slice-bounds panic; `ok` is false exactly
when the line has fewer than two spaces, and then the three strings are
empty. -/
theorem parseRequestLine_total_and_fails_iff_fewer_than_two_spaces (line : GoString) :
    ∃ res, parseRequestLine line = some res
      ∧ (res.ok = false ↔ line.count SP < 2)
      ∧ (res.ok = false → res.method = [] ∧ res.requestURI = [] ∧ res.proto = []) := by
  rcases first_occurrence SP line with h0 | ⟨l, t, rfl, hl⟩
  · refine ⟨_, parseRequestLine_no_space line h0, ?_, ?_⟩
    · simp [count_eq_zero_of_not_mem SP line h0]
    · simp
  · rcases first_occurrence SP t with h1 | ⟨m, r, rfl, hm⟩
    · refine ⟨_, parseRequestLine_one_space l t hl h1, ?_, ?_⟩
      · simp [List.count_append, List.count_cons, count_eq_zero_of_not_mem SP l hl,
          count_eq_zero_of_not_mem SP t h1]
      · simp
    · refine ⟨_, parseRequestLine_two_spaces l m r hl hm, ?_, ?_⟩
      · have : 2 ≤ (l ++ SP :: (m ++ SP :: r)).count SP := by
          simp [List.count_append, List.count_cons]; omega
        simp; omega
      · simp

/-! ## Lemmas on strings.Count and strings.Split at a one-byte separator -/

theorem drop_first (b : Byte) (l r : GoString) :
    List.drop (l.length + 1) (l ++ b :: r) = r := by
  have a : l ++ b :: r = (l ++ [b]) ++ r := by simp
  rw [a]
  exact List.drop_left' (by simp)

theorem take_first (b : Byte) (l r : GoString) :
    List.take l.length (l ++ b :: r) = l := by
  simp

theorem count_first (b : Byte) (l r : GoString) (h : b ∉ l) :
    (l ++ b :: r).count b = r.count b + 1 := by
  simp [List.count_append, List.count_cons, count_eq_zero_of_not_mem b l h]

theorem countLoop_single (b : Byte) (k : Nat) (s : GoString) (h : s.length ≤ k) :
    countLoop [b] k s = s.count b := by
  induction k generalizing s with
  | zero =>
    have : s = [] := List.length_eq_zero.mp (by omega)
    subst this
    simp [countLoop]
  | succ k ih =>
    rcases first_occurrence b s with h0 | ⟨l, r, rfl, hl⟩
    · simp [countLoop, stringsIndex_not_mem b s h0, count_eq_zero_of_not_mem b s h0]
    · have n1 : ¬ ((l.length : Int) < 0) := by omega
      have hr : r.length ≤ k := by simp at h; omega
      simp only [countLoop, stringsIndex_first b l r hl, n1, if_false, Int.toNat_ofNat,
        List.length_singleton, drop_first, ih r hr, count_first b l r hl]
      omega

theorem stringsCount_single (b : Byte) (s : GoString) : stringsCount s [b] = s.count b :=
  countLoop_single b s.length s (Nat.le_refl _)

theorem stringsSplit_single (b : Byte) (s : GoString) :
    stringsSplit s [b] = genSplitLoop [b] (s.count b) s := by
  have h : s.count b ≤ s.length := List.count_le_length b s
  unfold stringsSplit
  rw [stringsCount_single, show min (s.count b + 1) (s.length + 1) - 1 = s.count b by omega]

theorem genSplitLoop_first (b : Byte) (n : Nat) (l r : GoString) (hl : b ∉ l) :
    genSplitLoop [b] (n + 1) (l ++ b :: r) = l :: genSplitLoop [b] n r := by
  have n1 : ¬ ((l.length : Int) < 0) := by omega
  simp only [genSplitLoop, stringsIndex_first b l r hl, n1, if_false, Int.toNat_ofNat,
    List.length_singleton, drop_first, take_first]

theorem genSplitLoop_length (b : Byte) (n : Nat) (s : GoString) (h : s.count b = n) :
    (genSplitLoop [b] n s).length = n + 1 := by
  induction n generalizing s with
  | zero => simp [genSplitLoop]
  | succ n ih =>
    rcases first_occurrence b s with h0 | ⟨l, r, rfl, hl⟩
    · rw [count_eq_zero_of_not_mem b s h0] at h; omega
    · rw [genSplitLoop_first b n l r hl, List.length_cons, ih r]
      rw [count_first b l r hl] at h; omega

theorem stringsSplit_length (b : Byte) (s : GoString) :
    (stringsSplit s [b]).length = s.count b + 1 := by
  rw [stringsSplit_single]
  exact genSplitLoop_length b _ s rfl

theorem stringsSplit_one (b : Byte) (l r : GoString) (hl : b ∉ l) (hr : b ∉ r) :
    stringsSplit (l ++ b :: r) [b] = [l, r] := by
  rw [stringsSplit_single, count_first b l r hl, count_eq_zero_of_not_mem b r hr,
    genSplitLoop_first b 0 l r hl]
  simp [genSplitLoop]

/-! ## Lemmas on base64 -/

theorem encodeChar_ne_space (i : Nat) : encodeChar i ≠ SP := by
  have h : ∀ j : Fin 64, encodeStd.getD j.val 0 ≠ SP := by decide
  exact h ⟨i % 64, Nat.mod_lt _ (by decide)⟩

theorem padChar_ne_space : padChar ≠ SP := by decide

theorem space_not_mem_base64Encode (s : GoString) : SP ∉ base64Encode s := by
  induction s using base64Encode.induct with
  | case1 => simp [base64Encode]
  | case2 a =>
    simp [base64Encode, (encodeChar_ne_space _).symm, padChar_ne_space.symm]
  | case3 a b =>
    simp [base64Encode, (encodeChar_ne_space _).symm, padChar_ne_space.symm]
  | case4 a b c rest ih =>
    simp [base64Encode, (encodeChar_ne_space _).symm, ih]

theorem base64Encode_eq_nil (s : GoString) : base64Encode s = [] ↔ s = [] := by
  constructor
  · intro h
    match s, h with
    | [], _ => rfl
    | [_], h => simp [base64Encode] at h
    | [_, _], h => simp [base64Encode] at h
    | _ :: _ :: _ :: _, h => simp [base64Encode] at h
  · rintro rfl
    rfl

/-! ## Lemmas on strings.EqualFold -/

theorem utf8First_lo (b sz lo hi : Nat) (h : utf8First b = some (sz, lo, hi)) :
    0x80 ≤ lo := by
  unfold utf8First at h
  split_ifs at h <;> simp at h <;> omega

theorem decodeRune_width_pos (s0 : Byte) (t : GoString) :
    1 ≤ (decodeRune (s0 :: t)).2 := by
  simp only [decodeRune]
  repeat' split
  all_goals simp

theorem SP_val : SP.val = 32 := rfl

theorem ne_space_of_ge (x : Byte) (h : 0x80 ≤ x.val) : SP ≠ x := by
  intro e
  rw [← e, SP_val] at h
  omega

/-- The bytes consumed by a rune that does not start with an ASCII byte are
all at least `0x80`. -/
theorem decodeRune_high (s0 : Byte) (t : GoString) (h0 : ¬ s0.val < 0x80) :
    ∀ y ∈ (s0 :: t).take (decodeRune (s0 :: t)).2, 0x80 ≤ y.val := by
  simp only [decodeRune, h0, if_false]
  cases hf : utf8First s0.val with
  | none => simp; omega
  | some v =>
    obtain ⟨sz, lo, hi⟩ := v
    have hlo := utf8First_lo _ _ _ _ hf
    rcases t with _ | ⟨s1, _ | ⟨s2, _ | ⟨s3, t3⟩⟩⟩
    all_goals simp only []
    all_goals split_ifs
    all_goals simp
    all_goals omega

theorem mem_drop_of_not_mem_take (x : Byte) (l : GoString) (n : Nat) (h : x ∈ l)
    (hn : x ∉ l.take n) : x ∈ l.drop n := by
  rw [← List.take_append_drop n l, List.mem_append] at h
  exact h.resolve_left hn

theorem decodeRune_space (s0 : Byte) (t : GoString) (h : SP ∈ s0 :: t) :
    (decodeRune (s0 :: t)).1 = 32 ∨ SP ∈ (s0 :: t).drop (decodeRune (s0 :: t)).2 := by
  by_cases h0 : s0.val < 0x80
  · by_cases e : SP = s0
    · left
      simp [decodeRune, h0, ← e, SP_val]
    · right
      simp only [List.mem_cons, e, false_or] at h
      simpa [decodeRune, h0] using h
  · right
    apply mem_drop_of_not_mem_take _ _ _ h
    intro hm
    exact ne_space_of_ge SP (decodeRune_high s0 t h0 SP hm) rfl

theorem runesLoop_space (k : Nat) (s : GoString) (hk : s.length ≤ k) (h : SP ∈ s) :
    32 ∈ runesLoop k s := by
  induction k generalizing s with
  | zero =>
    have : s = [] := List.length_eq_zero.mp (by omega)
    subst this
    simp at h
  | succ k ih =>
    match s, hk, h with
    | s0 :: t, hk, h =>
      have hw := decodeRune_width_pos s0 t
      simp only [runesLoop, List.mem_cons]
      rw [if_neg (by simp)]
      rcases decodeRune_space s0 t h with e | e
      · simp [e]
      · right
        apply ih _ _ e
        simp only [List.length_drop, List.length_cons] at hk ⊢
        omega

theorem runes_space (s : GoString) (h : SP ∈ s) : 32 ∈ runes s :=
  runesLoop_space s.length s (Nat.le_refl _) h

theorem runes_Basic : runes (str "Basic") = [66, 97, 115, 105, 99] := by decide

theorem foldOrbit_space (r : Nat) (h : r ∈ foldOrbit 32) : r = 32 := by
  simpa [foldOrbit] using h

theorem mem_foldOrbit_ne_space (a b : Nat) (h : b ∈ foldOrbit a) (hb : b ≠ 32) : a ≠ 32 := by
  rintro rfl
  exact hb (foldOrbit_space b h)

theorem equalFoldRunes_space (rs ts : List Nat) (h : equalFoldRunes rs ts = true)
    (ht : 32 ∉ ts) : 32 ∉ rs := by
  induction rs generalizing ts with
  | nil => simp
  | cons a as ih =>
    match ts, h, ht with
    | [], h, _ => simp [equalFoldRunes] at h
    | b :: bs, h, ht =>
      simp only [equalFoldRunes, Bool.and_eq_true, decide_eq_true_eq] at h
      simp only [List.mem_cons, not_or] at ht ⊢
      exact ⟨fun e => mem_foldOrbit_ne_space a b h.1 (fun e2 => ht.1 e2.symm) e.symm,
        ih bs h.2 ht.2⟩

/-- A string that equals `Basic` under case folding holds no space. -/
theorem space_not_mem_of_equalFold_Basic (s : GoString)
    (h : stringsEqualFold s (str "Basic") = true) : SP ∉ s := by
  intro hs
  have h1 := runes_space s hs
  unfold stringsEqualFold at h
  rw [runes_Basic] at h
  exact equalFoldRunes_space _ _ h (by decide) h1

/-! ## What strings.EqualFold accepts against `Basic` -/

theorem runesLoop_fuel (k1 k2 : Nat) (s : GoString) (h1 : s.length ≤ k1)
    (h2 : s.length ≤ k2) : runesLoop k1 s = runesLoop k2 s := by
  induction k1 generalizing k2 s with
  | zero =>
    have : s = [] := List.length_eq_zero.mp (by omega)
    subst this
    cases k2 <;> simp [runesLoop]
  | succ k1 ih =>
    match s, h1, h2 with
    | [], _, _ => cases k2 <;> simp [runesLoop]
    | s0 :: t, h1, h2 =>
      cases k2 with
      | zero => simp at h2
      | succ k2 =>
        have hw := decodeRune_width_pos s0 t
        simp only [runesLoop]
        rw [if_neg (by simp), if_neg (by simp)]
        congr 1
        apply ih
        · simp only [List.length_drop, List.length_cons] at h1 ⊢
          omega
        · simp only [List.length_drop, List.length_cons] at h2 ⊢
          omega

theorem runes_nil : runes ([] : GoString) = [] := rfl

theorem runes_cons (s0 : Byte) (t : GoString) :
    runes (s0 :: t)
      = (decodeRune (s0 :: t)).1 :: runes ((s0 :: t).drop (decodeRune (s0 :: t)).2) := by
  have hw := decodeRune_width_pos s0 t
  unfold runes
  simp only [List.length_cons, runesLoop]
  rw [if_neg (by simp)]
  congr 1
  apply runesLoop_fuel
  · simp only [List.length_drop, List.length_cons]
    omega
  · exact Nat.le_refl _

theorem decodeRune_ascii (s0 : Byte) (t : GoString) (h : s0.val < 0x80) :
    decodeRune (s0 :: t) = (s0.val, 1) := by
  simp [decodeRune, h]

/-- The leading bytes of multi-byte sequences. -/
theorem utf8First_cases (b sz lo hi : Nat) (h : utf8First b = some (sz, lo, hi)) :
    (sz = 2 ∧ 0xC2 ≤ b ∧ b ≤ 0xDF ∧ lo = 0x80 ∧ hi = 0xBF)
      ∨ (sz = 3 ∧ b = 0xE0 ∧ lo = 0xA0 ∧ hi = 0xBF)
      ∨ (sz = 3 ∧ 0xE1 ≤ b ∧ b ≤ 0xEF ∧ 0x80 ≤ lo ∧ hi ≤ 0xBF)
      ∨ (sz = 4 ∧ b = 0xF0 ∧ lo = 0x90 ∧ hi = 0xBF)
      ∨ (sz = 4 ∧ 0xF1 ≤ b ∧ b ≤ 0xF4 ∧ 0x80 ≤ lo ∧ hi ≤ 0xBF) := by
  unfold utf8First at h
  split_ifs at h <;> simp at h <;> omega

/-- A rune that does not start with an ASCII byte is not ASCII, and it is the
long s U+017F only when decoded from the two bytes `C5 BF`. -/
theorem decodeRune_nonascii (s0 : Byte) (t : GoString) (h0 : ¬ s0.val < 0x80) :
    0x80 ≤ (decodeRune (s0 :: t)).1
      ∧ ((decodeRune (s0 :: t)).1 = 0x17F →
          s0.val = 0xC5 ∧ (decodeRune (s0 :: t)).2 = 2
            ∧ ∃ s1 t1, t = s1 :: t1 ∧ s1.val = 0xBF) := by
  simp only [decodeRune, h0, if_false]
  cases hf : utf8First s0.val with
  | none => simp [RuneError]
  | some v =>
    obtain ⟨sz, lo, hi⟩ := v
    have hc := utf8First_cases _ _ _ _ hf
    have hs0 := s0.isLt
    rcases t with _ | ⟨s1, _ | ⟨s2, _ | ⟨s3, t3⟩⟩⟩
    all_goals simp only []
    all_goals split_ifs
    all_goals simp [RuneError]
    all_goals omega

theorem runes_eq_nil (s : GoString) (h : runes s = []) : s = [] := by
  cases s with
  | nil => rfl
  | cons s0 t =>
    rw [runes_cons] at h
    exact absurd h (by simp)

/-- An ASCII rune at the head of the runes of a string is its first byte. -/
theorem runes_ascii_inv (s : GoString) (a : Nat) (rest : List Nat)
    (h : runes s = a :: rest) (ha : a < 0x80) :
    ∃ s0 t, s = s0 :: t ∧ s0.val = a ∧ runes t = rest := by
  cases s with
  | nil =>
    rw [runes_nil] at h
    exact absurd h (by simp)
  | cons s0 t =>
    rw [runes_cons] at h
    simp only [List.cons.injEq] at h
    by_cases h0 : s0.val < 0x80
    · rw [decodeRune_ascii s0 t h0] at h
      exact ⟨s0, t, rfl, h.1, by simpa using h.2⟩
    · have := (decodeRune_nonascii s0 t h0).1
      omega

/-- The long s at the head of the runes of a string is the two bytes
`C5 BF`. -/
theorem runes_longS_inv (s : GoString) (rest : List Nat) (h : runes s = 0x17F :: rest) :
    ∃ t, s = 0xC5 :: 0xBF :: t ∧ runes t = rest := by
  cases s with
  | nil =>
    rw [runes_nil] at h
    exact absurd h (by simp)
  | cons s0 t =>
    rw [runes_cons] at h
    simp only [List.cons.injEq] at h
    by_cases h0 : s0.val < 0x80
    · rw [decodeRune_ascii s0 t h0] at h
      have := h.1
      simp only at this
      omega
    · obtain ⟨e0, ew, s1, t1, rfl, e1⟩ := (decodeRune_nonascii s0 t h0).2 h.1
      have f0 : s0 = 0xC5 := Fin.ext e0
      have f1 : s1 = 0xBF := Fin.ext e1
      subst f0 f1
      refine ⟨t1, rfl, ?_⟩
      rw [ew] at h
      simpa using h.2

theorem step_letter (u l : Byte) (hu : u.val < 0x80) (hl : l.val < 0x80) (s : GoString)
    (a : Nat) (rest : List Nat) (h : runes s = a :: rest) (ha : a = u.val ∨ a = l.val) :
    ∃ t, (s = u :: t ∨ s = l :: t) ∧ runes t = rest := by
  have ha2 : a < 0x80 := by
    rcases ha with e | e <;> omega
  obtain ⟨s0, t, rfl, e0, ht⟩ := runes_ascii_inv s a rest h ha2
  refine ⟨t, ?_, ht⟩
  rcases ha with e | e
  · left
    rw [Fin.ext (e0.trans e)]
  · right
    rw [Fin.ext (e0.trans e)]

theorem equalFoldRunes_cons_inv (rs bs : List Nat) (b : Nat)
    (h : equalFoldRunes rs (b :: bs) = true) :
    ∃ a as, rs = a :: as ∧ b ∈ foldOrbit a ∧ equalFoldRunes as bs = true := by
  cases rs with
  | nil => simp [equalFoldRunes] at h
  | cons a as =>
    simp only [equalFoldRunes, Bool.and_eq_true, decide_eq_true_eq] at h
    exact ⟨a, as, rfl, h.1, h.2⟩

theorem equalFoldRunes_nil_inv (rs : List Nat) (h : equalFoldRunes rs [] = true) :
    rs = [] := by
  cases rs with
  | nil => rfl
  | cons a as => simp [equalFoldRunes] at h

/-- The runes that fold onto a letter of `Basic`. -/
theorem foldOrbit_Basic_inv (a : Nat) :
    (66 ∈ foldOrbit a → a = 66 ∨ a = 98) ∧ (97 ∈ foldOrbit a → a = 65 ∨ a = 97)
      ∧ (115 ∈ foldOrbit a → a = 83 ∨ a = 115 ∨ a = 0x17F)
      ∧ (105 ∈ foldOrbit a → a = 73 ∨ a = 105) ∧ (99 ∈ foldOrbit a → a = 67 ∨ a = 99) := by
  unfold foldOrbit
  refine ⟨?_, ?_, ?_, ?_, ?_⟩ <;> intro h <;> split_ifs at h <;> simp at h <;> omega

theorem mem_concatChoices_cons (c t : GoString) (cs : List GoString)
    (rest : List (List GoString)) (hc : c ∈ cs) (ht : t ∈ concatChoices rest) :
    c ++ t ∈ concatChoices (cs :: rest) := by
  simp only [concatChoices, List.mem_flatMap, List.mem_map]
  exact ⟨c, hc, t, ht, rfl⟩

set_option maxRecDepth 100000 in
theorem equalFold_of_mem_basicIgnoringCase :
    ∀ S ∈ basicIgnoringCase, stringsEqualFold S (str "Basic") = true := by
  decide

theorem mem_basicIgnoringCase_of_equalFold (S : GoString)
    (h : stringsEqualFold S (str "Basic") = true) : S ∈ basicIgnoringCase := by
  unfold stringsEqualFold at h
  rw [runes_Basic] at h
  obtain ⟨a1, r1, e1, m1, h⟩ := equalFoldRunes_cons_inv _ _ _ h
  obtain ⟨a2, r2, e2, m2, h⟩ := equalFoldRunes_cons_inv _ _ _ h
  obtain ⟨a3, r3, e3, m3, h⟩ := equalFoldRunes_cons_inv _ _ _ h
  obtain ⟨a4, r4, e4, m4, h⟩ := equalFoldRunes_cons_inv _ _ _ h
  obtain ⟨a5, r5, e5, m5, h⟩ := equalFoldRunes_cons_inv _ _ _ h
  have e6 := equalFoldRunes_nil_inv _ h
  subst e2 e3 e4 e5 e6
  obtain ⟨t1, hs1, ht1⟩ := step_letter 66 98 (by decide) (by decide) S a1 _ e1
    ((foldOrbit_Basic_inv a1).1 m1)
  obtain ⟨t2, hs2, ht2⟩ := step_letter 65 97 (by decide) (by decide) t1 a2 _ ht1
    ((foldOrbit_Basic_inv a2).2.1 m2)
  have hs3 : ∃ c3 t3, c3 ∈ [str "S", str "s", [0xC5, 0xBF]] ∧ t2 = c3 ++ t3
      ∧ runes t3 = [a4, a5] := by
    rcases (foldOrbit_Basic_inv a3).2.2.1 m3 with e | e | e
    · obtain ⟨t3, hs, ht⟩ := step_letter 83 83 (by decide) (by decide) t2 a3 _ ht2
        (Or.inl e)
      exact ⟨str "S", t3, by decide, by rcases hs with r | r <;> rw [r] <;> rfl, ht⟩
    · obtain ⟨t3, hs, ht⟩ := step_letter 115 115 (by decide) (by decide) t2 a3 _ ht2
        (Or.inl e)
      exact ⟨str "s", t3, by decide, by rcases hs with r | r <;> rw [r] <;> rfl, ht⟩
    · subst e
      obtain ⟨t3, hs, ht⟩ := runes_longS_inv t2 _ ht2
      exact ⟨[0xC5, 0xBF], t3, by decide, by rw [hs]; rfl, ht⟩
  obtain ⟨c3, t3, hc3, hs3, ht3⟩ := hs3
  obtain ⟨t4, hs4, ht4⟩ := step_letter 73 105 (by decide) (by decide) t3 a4 _ ht3
    ((foldOrbit_Basic_inv a4).2.2.2.1 m4)
  obtain ⟨t5, hs5, ht5⟩ := step_letter 67 99 (by decide) (by decide) t4 a5 _ ht4
    ((foldOrbit_Basic_inv a5).2.2.2.2 m5)
  have e5 := runes_eq_nil t5 ht5
  subst e5
  have m5 : t4 ∈ concatChoices [[str "C", str "c"]] := by
    rcases hs5 with r | r <;> rw [r] <;> decide
  have m4 : t3 ∈ concatChoices [[str "I", str "i"], [str "C", str "c"]] := by
    rcases hs4 with r | r <;> rw [r]
    · exact mem_concatChoices_cons (str "I") t4 _ _ (by decide) m5
    · exact mem_concatChoices_cons (str "i") t4 _ _ (by decide) m5
  have m3 : t2 ∈ concatChoices
      [[str "S", str "s", [0xC5, 0xBF]], [str "I", str "i"], [str "C", str "c"]] := by
    rw [hs3]
    exact mem_concatChoices_cons c3 t3 _ _ hc3 m4
  have m2 : t1 ∈ concatChoices
      [[str "A", str "a"], [str "S", str "s", [0xC5, 0xBF]], [str "I", str "i"],
       [str "C", str "c"]] := by
    rcases hs2 with r | r <;> rw [r]
    · exact mem_concatChoices_cons (str "A") t2 _ _ (by decide) m3
    · exact mem_concatChoices_cons (str "a") t2 _ _ (by decide) m3
  rcases hs1 with r | r <;> rw [r]
  · exact mem_concatChoices_cons (str "B") t1 _ _ (by decide) m2
  · exact mem_concatChoices_cons (str "b") t1 _ _ (by decide) m2

/-- What `strings.EqualFold(S, "Basic")` accepts: `Basic` with each letter
in any of its case forms. -/
theorem equalFold_Basic_iff (S : GoString) :
    stringsEqualFold S (str "Basic") = true ↔ S ∈ basicIgnoringCase :=
  ⟨mem_basicIgnoringCase_of_equalFold S, equalFold_of_mem_basicIgnoringCase S⟩

/-! ## server.go: validateCredential -/

theorem ite_bool (b : Bool) : (if b = true then true else false) = b := by
  cases b <;> rfl

theorem validateCredential_eq (server : Server) (p : GoString) :
    server.validateCredential p
      = ((stringsSplit p [SP]).length = 2
          && stringsEqualFold ((stringsSplit p [SP]).getD 0 []) (str "Basic")
          && (stringsSplit p [SP]).getD 1 [] == server.credential) := by
  unfold Server.validateCredential
  rw [str_space]
  exact ite_bool _

theorem validateCredential_no_space (server : Server) (p : GoString) (h : SP ∉ p) :
    server.validateCredential p = false := by
  rw [validateCredential_eq]
  have : (stringsSplit p [SP]).length = 1 := by
    rw [stringsSplit_length, count_eq_zero_of_not_mem SP p h]
  simp [this]

theorem validateCredential_one_space (server : Server) (l r : GoString) (hl : SP ∉ l)
    (hr : SP ∉ r) :
    server.validateCredential (l ++ SP :: r)
      = (stringsEqualFold l (str "Basic") && r == server.credential) := by
  rw [validateCredential_eq, stringsSplit_one SP l r hl hr]
  simp

theorem validateCredential_more_spaces (server : Server) (l r : GoString) (hl : SP ∉ l)
    (hr : SP ∈ r) :
    server.validateCredential (l ++ SP :: r) = false := by
  rw [validateCredential_eq]
  have : (stringsSplit (l ++ SP :: r) [SP]).length ≠ 2 := by
    rw [stringsSplit_length, count_first SP l r hl]
    have : 0 < r.count SP := List.count_pos_iff.mpr hr
    omega
  simp [this]

theorem validateCredentialSpec_no_space (c p : GoString) (h : SP ∉ p) :
    validateCredentialSpec c p = false := by
  simp [validateCredentialSpec, str_space, stringsIndex_not_mem SP p h]

theorem validateCredentialSpec_first (c l r : GoString) (hl : SP ∉ l) :
    validateCredentialSpec c (l ++ SP :: r)
      = (stringsEqualFold l (str "Basic") && r == c) := by
  have n1 : ¬ ((l.length : Int) < 0) := by omega
  simp only [validateCredentialSpec, str_space, stringsIndex_first SP l r hl, n1, if_false,
    Int.toNat_ofNat, drop_first, take_first]

/-- On a stored credential without a space, `validateCredential` equals the
procedure of the specification. -/
theorem validateCredential_eq_spec_of_no_space (server : Server) (p : GoString)
    (hc : SP ∉ server.credential) :
    server.validateCredential p = validateCredentialSpec server.credential p := by
  rcases first_occurrence SP p with h0 | ⟨l, r, rfl, hl⟩
  · rw [validateCredential_no_space server p h0, validateCredentialSpec_no_space _ p h0]
  · rw [validateCredentialSpec_first _ l r hl]
    by_cases hr : SP ∈ r
    · rw [validateCredential_more_spaces server l r hl hr]
      have : (r == server.credential) = false := by
        apply beq_false_of_ne
        rintro rfl
        exact hc hr
      simp [this]
    · exact validateCredential_one_space server l r hl hr

/-- The credential that `New` stores, with or without `genAuth`, is base64
text and holds no space. -/
theorem space_not_mem_New_credential (randStr : Nat → Nat → GoString)
    (addr credential : GoString) (genAuth : Bool) :
    SP ∉ (New randStr addr credential genAuth).credential := by
  unfold New
  exact space_not_mem_base64Encode _

/-- C10. For every credential that a server holds, that is every credential
stored by `New`, the one constructor of a `Server`, with or without
`genAuth`, and every presented string, `validateCredential` equals the
procedure of the specification: split the presented string at its first
space, accept exactly when both tokens exist, the first equals `Basic`
ignoring case and the second, everything after the first space, equals the
stored credential. -/
theorem validateCredential_equals_spec_procedure (randStr : Nat → Nat → GoString)
    (addr credential : GoString) (genAuth : Bool) (p : GoString) :
    (New randStr addr credential genAuth).validateCredential p
      = validateCredentialSpec (New randStr addr credential genAuth).credential p :=
  validateCredential_eq_spec_of_no_space _ p
    (space_not_mem_New_credential randStr addr credential genAuth)

theorem validateCredential_iff (server : Server) (p : GoString)
    (hc : SP ∉ server.credential) :
    server.validateCredential p = true
      ↔ ∃ S, stringsEqualFold S (str "Basic") = true
          ∧ p = S ++ str " " ++ server.credential := by
  constructor
  · intro h
    rcases first_occurrence SP p with h0 | ⟨l, r, rfl, hl⟩
    · rw [validateCredential_no_space server p h0] at h
      exact absurd h (by simp)
    · by_cases hr : SP ∈ r
      · rw [validateCredential_more_spaces server l r hl hr] at h
        exact absurd h (by simp)
      · rw [validateCredential_one_space server l r hl hr] at h
        simp only [Bool.and_eq_true, beq_iff_eq] at h
        exact ⟨l, h.1, by simp [str_space, h.2]⟩
  · rintro ⟨S, hS, rfl⟩
    have hl := space_not_mem_of_equalFold_Basic S hS
    have e : S ++ str " " ++ server.credential = S ++ SP :: server.credential := by
      simp [str_space]
    rw [e, validateCredential_one_space server S _ hl hc]
    simp [hS]

/-! ## conn.go: auth -/

/-- C3. A server built by `New` from a non-empty credential `u`, without
`genAuth`, requires authentication; `conn.auth` accepts exactly the presented
values `S + " " + base64(u)` where `S` equals `Basic` ignoring case, that is
where `S` is `Basic` with each letter in any of its case forms (`B` or `b`,
`A` or `a`, `S`, `s` or the long s U+017F, `I` or `i`, `C` or `c`), and so
rejects every other value, the empty string among them. -/
theorem auth_accepts_exactly_basic_credential (randStr : Nat → Nat → GoString)
    (addr u : GoString) (env : Env) (p : GoString) (hu : u ≠ []) :
    (New randStr addr u false).isAuth = true
      ∧ ((auth (New randStr addr u false) env p).1 = true
          ↔ ∃ S ∈ basicIgnoringCase, p = S ++ str " " ++ base64Encode u)
      ∧ (auth (New randStr addr u false) env []).1 = false := by
  have hcred : (New randStr addr u false).credential = base64Encode u := by
    simp [New]
  have hne : base64Encode u ≠ [] := fun h => hu ((base64Encode_eq_nil u).mp h)
  have hauth : (New randStr addr u false).isAuth = true := by
    simp [Server.isAuth, hcred, hne]
  have hsp : SP ∉ (New randStr addr u false).credential :=
    space_not_mem_New_credential randStr addr u false
  have key : ∀ q, (auth (New randStr addr u false) env q).1
      = (New randStr addr u false).validateCredential q := by
    intro q
    unfold auth
    rw [hauth]
    cases (New randStr addr u false).validateCredential q <;> simp
  refine ⟨hauth, ?_, ?_⟩
  · rw [key, validateCredential_iff _ _ hsp, hcred]
    constructor
    · rintro ⟨S, hS, e⟩
      exact ⟨S, (equalFold_Basic_iff S).mp hS, e⟩
    · rintro ⟨S, hS, e⟩
      exact ⟨S, (equalFold_Basic_iff S).mpr hS, e⟩
  · rw [key]
    exact validateCredential_no_space _ _ (by simp)

set_option maxRecDepth 100000 in
theorem auth_accepts_exactly_basic_credential_witness :
    str "user:pass" ≠ []
      ∧ ((New (fun _ _ => []) (str ":8080") (str "user:pass") false).isAuth = true
        ∧ ((auth (New (fun _ _ => []) (str ":8080") (str "user:pass") false)
              (requestEnv (str "GET http://example.org/ HTTP/1.1") [])
              (str "bASIC dXNlcjpwYXNz")).1 = true
            ↔ ∃ S ∈ basicIgnoringCase,
                str "bASIC dXNlcjpwYXNz" = S ++ str " " ++ base64Encode (str "user:pass"))
        ∧ (auth (New (fun _ _ => []) (str ":8080") (str "user:pass") false)
              (requestEnv (str "GET http://example.org/ HTTP/1.1") []) []).1 = false)
      ∧ (auth (New (fun _ _ => []) (str ":8080") (str "user:pass") false)
            (requestEnv (str "GET http://example.org/ HTTP/1.1") [])
            (str "bASIC dXNlcjpwYXNz")).1 = true :=
  ⟨by decide, auth_accepts_exactly_basic_credential _ _ _ _ _ (by decide),
    (auth_accepts_exactly_basic_credential (fun _ _ => []) (str ":8080") (str "user:pass")
      (requestEnv (str "GET http://example.org/ HTTP/1.1") []) (str "bASIC dXNlcjpwYXNz")
      (by decide)).2.1.mpr ⟨str "bASIC", by decide, by decide⟩⟩

set_option maxRecDepth 100000 in
/-- The code of `conn.auth` on known values, for the credential `user:pass`:
`basic`, `BASIC` and `Basic` written with the long s are accepted before the
base64 text; a shortened scheme, a second space, a wrong credential, the
scheme alone and the empty string are rejected. -/
theorem auth_known :
    (auth (New (fun _ _ => []) (str ":8080") (str "user:pass") false)
        (requestEnv (str "GET http://example.org/ HTTP/1.1") [])
        (str "basic dXNlcjpwYXNz")).1 = true
      ∧ (auth (New (fun _ _ => []) (str ":8080") (str "user:pass") false)
        (requestEnv (str "GET http://example.org/ HTTP/1.1") [])
        (str "BASIC dXNlcjpwYXNz")).1 = true
      ∧ (auth (New (fun _ _ => []) (str ":8080") (str "user:pass") false)
        (requestEnv (str "GET http://example.org/ HTTP/1.1") [])
        ([66, 97, 0xC5, 0xBF, 105, 99] ++ str " dXNlcjpwYXNz")).1 = true
      ∧ (auth (New (fun _ _ => []) (str ":8080") (str "user:pass") false)
        (requestEnv (str "GET http://example.org/ HTTP/1.1") [])
        (str "Basi dXNlcjpwYXNz")).1 = false
      ∧ (auth (New (fun _ _ => []) (str ":8080") (str "user:pass") false)
        (requestEnv (str "GET http://example.org/ HTTP/1.1") [])
        (str "Basic  dXNlcjpwYXNz")).1 = false
      ∧ (auth (New (fun _ _ => []) (str ":8080") (str "user:pass") false)
        (requestEnv (str "GET http://example.org/ HTTP/1.1") [])
        (str "Basic dXNlcjpwYXNzCg==")).1 = false
      ∧ (auth (New (fun _ _ => []) (str ":8080") (str "user:pass") false)
        (requestEnv (str "GET http://example.org/ HTTP/1.1") [])
        (str "Basic")).1 = false
      ∧ (auth (New (fun _ _ => []) (str ":8080") (str "user:pass") false)
        (requestEnv (str "GET http://example.org/ HTTP/1.1") []) []).1 = false := by
  decide

/-- C4. On a server built by `New` from the empty credential, without
`genAuth`, the stored credential is empty and `conn.auth` returns true on
every presented credential, the empty one among them, and writes nothing to
the client. -/
theorem auth_without_configured_credential (randStr : Nat → Nat → GoString)
    (addr : GoString) (env : Env) (p : GoString) :
    (New randStr addr [] false).credential = []
      ∧ auth (New randStr addr [] false) env p = (true, []) := by
  have hcred : (New randStr addr [] false).credential = [] := by
    simp [New, base64Encode]
  refine ⟨hcred, ?_⟩
  simp [auth, Server.isAuth, hcred]

/-! ## conn.go: getTunnelInfo -/

/-- What a run of `getTunnelInfo` without error went through. -/
theorem getTunnelInfo_success (env : Env) (info : TunnelInfo)
    (h : getTunnelInfo env = some info) (herr : info.err = none) :
    ∃ L rl u H, env.readLine = .ok L ∧ parseRequestLine L = some rl ∧ rl.ok = true
      ∧ env.parseRequestURI
          (if rl.method = str "CONNECT" then str "http://" ++ rl.requestURI
            else rl.requestURI) = .ok u
      ∧ env.readMIMEHeader = .ok H
      ∧ info.rawRequestHeader
          = writeString (writeHeaders (writeString [] (L ++ str "\r\n")) H) (str "\r\n")
      ∧ info.host
          = (if u.Host = [] then H.Get (str "Host")
              else if stringsIndex u.Host (str ":") = -1 then u.Host ++ str ":80"
              else u.Host)
      ∧ info.credential = H.Get (str "Proxy-Authorization")
      ∧ info.isHTTPS = (if rl.method = str "CONNECT" then true else false) := by
  unfold getTunnelInfo at h
  cases hL : env.readLine with
  | error e =>
    rw [hL] at h
    simp only [Option.some.injEq] at h
    rw [← h] at herr
    simp at herr
  | ok L =>
    rw [hL] at h
    simp only [] at h
    cases hrl : parseRequestLine L with
    | none =>
      rw [hrl] at h
      simp at h
    | some rl =>
      rw [hrl] at h
      simp only [] at h
      cases hok : rl.ok with
      | false =>
        rw [hok] at h
        simp only [Bool.not_false, if_true, Option.some.injEq] at h
        rw [← h] at herr
        simp at herr
      | true =>
        rw [hok] at h
        simp only [Bool.not_true, Bool.false_eq_true, if_false] at h
        cases hu : env.parseRequestURI
            (if rl.method = str "CONNECT" then str "http://" ++ rl.requestURI
              else rl.requestURI) with
        | error e =>
          rw [hu] at h
          simp only [Option.some.injEq] at h
          rw [← h] at herr
          simp at herr
        | ok u =>
          rw [hu] at h
          simp only [] at h
          cases hH : env.readMIMEHeader with
          | error e =>
            rw [hH] at h
            simp only [Option.some.injEq] at h
            rw [← h] at herr
            simp at herr
          | ok H =>
            rw [hH] at h
            simp only [Option.some.injEq] at h
            refine ⟨L, rl, u, H, rfl, hrl, hok, hu, rfl, ?_, ?_, ?_, ?_⟩ <;> rw [← h]

theorem stringsIndex_mem (b : Byte) (s : GoString) (h : b ∈ s) : stringsIndex s [b] ≠ -1 := by
  rcases first_occurrence b s with h0 | ⟨l, r, rfl, hl⟩
  · exact absurd h h0
  · rw [stringsIndex_first b l r hl]
    omega

theorem stringsIndex_colon_iff (s : GoString) : stringsIndex s (str ":") = -1 ↔ COLON ∉ s := by
  rw [str_colon]
  constructor
  · intro h hm
    exact stringsIndex_mem COLON s hm h
  · exact stringsIndex_not_mem COLON s

theorem stringsLastIndex_not_mem (b : Byte) (s : GoString) (h : b ∉ s) :
    stringsLastIndex s [b] = -1 := by
  induction s with
  | nil => simp [stringsLastIndex]
  | cons c t ih =>
    simp only [List.mem_cons, not_or] at h
    simp [stringsLastIndex, ih h.2, List.isPrefixOf, h.1]

theorem port_ne_nil_colon (u : URL) (h : u.Port ≠ []) : COLON ∈ u.Host := by
  by_contra hc
  apply h
  unfold URL.Port
  rw [str_colon, stringsLastIndex_not_mem COLON u.Host hc]
  simp

/-- The destination that `getTunnelInfo` derives from a URI host without a
colon, and from one with a colon. -/
theorem destination_of_host (u : URL) (H : MIMEHeader) :
    (u.Host ≠ [] → COLON ∉ u.Host →
      (if u.Host = [] then H.Get (str "Host")
        else if stringsIndex u.Host (str ":") = -1 then u.Host ++ str ":80"
        else u.Host) = u.Host ++ str ":80")
    ∧ (COLON ∈ u.Host →
      (if u.Host = [] then H.Get (str "Host")
        else if stringsIndex u.Host (str ":") = -1 then u.Host ++ str ":80"
        else u.Host) = u.Host) := by
  constructor
  · intro h1 h2
    rw [if_neg h1, if_pos ((stringsIndex_colon_iff _).mpr h2)]
  · intro h2
    have h1 : u.Host ≠ [] := by
      intro e
      rw [e] at h2
      simp at h2
    rw [if_neg h1, if_neg (fun e => (stringsIndex_colon_iff _).mp e h2)]

/-- C5, the claim as stated fails. The target of `GET /index.html HTTP/1.1`
has no host and no port, and with the header `Host: example.org:8080` the
destination is the value of that header, not the target's (empty) host with
`:80` appended. The target of `GET http://[::1]/ HTTP/1.1` has the host
`[::1]` and no port, and the destination is `[::1]`, without `:80`. -/
theorem plain_http_destination_not_always_target_host_with_port :
    getTunnelInfo (requestEnv (str "GET /index.html HTTP/1.1")
        [(str "Host", [str "example.org:8080"])])
      = some { rawRequestHeader :=
                 str "GET /index.html HTTP/1.1\r\nHost:example.org:8080\r\n\r\n",
               host := str "example.org:8080", credential := [], isHTTPS := false,
               err := none }
    ∧ (urlParseRequestURI (str "/index.html")).map (fun u => (u.Host, u.Port))
        = .ok ([], [])
    ∧ str "example.org:8080" ≠ [] ++ str ":80"
    ∧ getTunnelInfo (requestEnv (str "GET http://[::1]/ HTTP/1.1") [])
      = some { rawRequestHeader := str "GET http://[::1]/ HTTP/1.1\r\n\r\n",
               host := str "[::1]", credential := [], isHTTPS := false, err := none }
    ∧ (urlParseRequestURI (str "http://[::1]/")).map (fun u => (u.Host, u.Port))
        = .ok (str "[::1]", [])
    ∧ str "[::1]" ≠ str "[::1]" ++ str ":80" := by
  set_option maxRecDepth 8192 in decide

/-- C5, amended. For every plain HTTP (non-CONNECT) request on which
`getTunnelInfo` succeeds, the target was parsed, and when it has a host
component: if that component holds no colon the destination is it with `:80`
appended; if the target specifies a port, the destination is the `host:port`
of the target unmodified. -/
theorem plain_http_destination (env : Env) (info : TunnelInfo) (L : GoString)
    (rl : RequestLine) (hL : env.readLine = .ok L) (hrl : parseRequestLine L = some rl)
    (hm : rl.method ≠ str "CONNECT") (hinfo : getTunnelInfo env = some info)
    (herr : info.err = none) :
    ∃ u, env.parseRequestURI rl.requestURI = .ok u
      ∧ (u.Host ≠ [] → COLON ∉ u.Host → info.host = u.Host ++ str ":80")
      ∧ (u.Port ≠ [] → info.host = u.Host) := by
  obtain ⟨L2, rl2, u, H, hL2, hrl2, _, hu, _, _, hhost, _, _⟩ :=
    getTunnelInfo_success env info hinfo herr
  rw [hL] at hL2
  cases hL2
  rw [hrl] at hrl2
  cases hrl2
  rw [if_neg hm] at hu
  refine ⟨u, hu, ?_, ?_⟩
  · intro h1 h2
    rw [hhost]
    exact (destination_of_host u H).1 h1 h2
  · intro h1
    rw [hhost]
    exact (destination_of_host u H).2 (port_ne_nil_colon u h1)

set_option maxRecDepth 8192 in
theorem plain_http_destination_witness :
    (requestEnv (str "GET http://example.org/ HTTP/1.1")
        [(str "Host", [str "example.org"])]).readLine
      = .ok (str "GET http://example.org/ HTTP/1.1")
    ∧ parseRequestLine (str "GET http://example.org/ HTTP/1.1")
      = some { method := str "GET", requestURI := str "http://example.org/",
               proto := str "HTTP/1.1", ok := true }
    ∧ str "GET" ≠ str "CONNECT"
    ∧ getTunnelInfo (requestEnv (str "GET http://example.org/ HTTP/1.1")
        [(str "Host", [str "example.org"])])
      = some { rawRequestHeader :=
                 str "GET http://example.org/ HTTP/1.1\r\nHost:example.org\r\n\r\n",
               host := str "example.org:80", credential := [], isHTTPS := false,
               err := none }
    ∧ ∃ u, urlParseRequestURI (str "http://example.org/") = .ok u
      ∧ (u.Host ≠ [] → COLON ∉ u.Host → str "example.org:80" = u.Host ++ str ":80")
      ∧ (u.Port ≠ [] → str "example.org:80" = u.Host) :=
  ⟨rfl, by decide, by decide, by decide,
    plain_http_destination
      (requestEnv (str "GET http://example.org/ HTTP/1.1") [(str "Host", [str "example.org"])])
      { rawRequestHeader := str "GET http://example.org/ HTTP/1.1\r\nHost:example.org\r\n\r\n",
        host := str "example.org:80", credential := [], isHTTPS := false, err := none }
      (str "GET http://example.org/ HTTP/1.1")
      { method := str "GET", requestURI := str "http://example.org/",
        proto := str "HTTP/1.1", ok := true }
      rfl (by decide) (by decide) (by decide) rfl⟩

/-- C6, the claim as stated fails. For `CONNECT example.org HTTP/1.1` the
HTTPS flag is set, and the destination is `example.org:80`: the default port
is appended to the target the client sent. -/
theorem connect_target_without_port_gets_default_port :
    getTunnelInfo (requestEnv (str "CONNECT example.org HTTP/1.1") [])
      = some { rawRequestHeader := str "CONNECT example.org HTTP/1.1\r\n\r\n",
               host := str "example.org:80", credential := [], isHTTPS := true,
               err := none }
    ∧ parseRequestLine (str "CONNECT example.org HTTP/1.1")
      = some { method := str "CONNECT", requestURI := str "example.org",
               proto := str "HTTP/1.1", ok := true }
    ∧ str "example.org:80" ≠ str "example.org" := by
  set_option maxRecDepth 8192 in decide

/-- C6, amended. For every CONNECT request on which `getTunnelInfo` succeeds
the HTTPS flag is true and the target was parsed behind the prefix `http://`;
when the host component so parsed is the whole target and holds a colon (the
target carries its own port), the destination equals the target exactly as
the client sent it; when the host component is non-empty and holds no colon,
the destination is it with `:80` appended. -/
theorem connect_destination (env : Env) (info : TunnelInfo) (L : GoString)
    (rl : RequestLine) (hL : env.readLine = .ok L) (hrl : parseRequestLine L = some rl)
    (hm : rl.method = str "CONNECT") (hinfo : getTunnelInfo env = some info)
    (herr : info.err = none) :
    info.isHTTPS = true
      ∧ ∃ u, env.parseRequestURI (str "http://" ++ rl.requestURI) = .ok u
        ∧ (u.Host = rl.requestURI → COLON ∈ rl.requestURI → info.host = rl.requestURI)
        ∧ (u.Host ≠ [] → COLON ∉ u.Host → info.host = u.Host ++ str ":80") := by
  obtain ⟨L2, rl2, u, H, hL2, hrl2, _, hu, _, _, hhost, _, hhttps⟩ :=
    getTunnelInfo_success env info hinfo herr
  rw [hL] at hL2
  cases hL2
  rw [hrl] at hrl2
  cases hrl2
  rw [if_pos hm] at hu hhttps
  refine ⟨hhttps, u, hu, ?_, ?_⟩
  · intro h1 h2
    rw [hhost, ← h1]
    exact (destination_of_host u H).2 (h1 ▸ h2)
  · intro h1 h2
    rw [hhost]
    exact (destination_of_host u H).1 h1 h2

set_option maxRecDepth 8192 in
theorem connect_destination_witness :
    (requestEnv (str "CONNECT example.org:443 HTTP/1.1") []).readLine
      = .ok (str "CONNECT example.org:443 HTTP/1.1")
    ∧ parseRequestLine (str "CONNECT example.org:443 HTTP/1.1")
      = some { method := str "CONNECT", requestURI := str "example.org:443",
               proto := str "HTTP/1.1", ok := true }
    ∧ getTunnelInfo (requestEnv (str "CONNECT example.org:443 HTTP/1.1") [])
      = some { rawRequestHeader := str "CONNECT example.org:443 HTTP/1.1\r\n\r\n",
               host := str "example.org:443", credential := [], isHTTPS := true,
               err := none }
    ∧ (true = true
      ∧ ∃ u, urlParseRequestURI (str "http://" ++ str "example.org:443") = .ok u
        ∧ (u.Host = str "example.org:443" → COLON ∈ str "example.org:443"
            → str "example.org:443" = str "example.org:443")
        ∧ (u.Host ≠ [] → COLON ∉ u.Host → str "example.org:443" = u.Host ++ str ":80")) :=
  ⟨rfl, by decide, by decide,
    connect_destination (requestEnv (str "CONNECT example.org:443 HTTP/1.1") [])
      { rawRequestHeader := str "CONNECT example.org:443 HTTP/1.1\r\n\r\n",
        host := str "example.org:443", credential := [], isHTTPS := true, err := none }
      (str "CONNECT example.org:443 HTTP/1.1")
      { method := str "CONNECT", requestURI := str "example.org:443",
        proto := str "HTTP/1.1", ok := true }
      rfl (by decide) rfl (by decide) rfl⟩

/-- C7, the code at the failing input. For the request
`GET /index.html HTTP/1.1` with the header `Host: example.org`,
`getTunnelInfo` succeeds and the destination is `example.org`, which holds
no colon; `serve` then dials that address. -/
theorem host_header_destination_lacks_port :
    getTunnelInfo (requestEnv (str "GET /index.html HTTP/1.1")
        [(str "Host", [str "example.org"])])
      = some { rawRequestHeader := str "GET /index.html HTTP/1.1\r\nHost:example.org\r\n\r\n",
               host := str "example.org", credential := [], isHTTPS := false,
               err := none }
    ∧ COLON ∉ str "example.org"
    ∧ Event.dial (str "tcp") (str "example.org")
        ∈ serve { addr := str ":8080", credential := [] }
            (requestEnv (str "GET /index.html HTTP/1.1")
              [(str "Host", [str "example.org"])]) := by
  set_option maxRecDepth 8192 in decide

/-! ## conn.go: the rebuilt header -/

theorem foldl_writeString (k : GoString) (vs : List GoString) (buf : GoString) :
    vs.foldl (fun buf v => writeString buf (sprintfHeader k v)) buf
      = buf ++ (vs.map fun v => k ++ str ":" ++ v ++ str "\r\n").flatten := by
  induction vs generalizing buf with
  | nil => simp
  | cons v vs ih =>
    rw [List.foldl_cons, ih]
    simp [writeString, sprintfHeader]

theorem writeHeaders_eq (buf : GoString) (H : MIMEHeader) :
    writeHeaders buf H = buf ++ (headerLines H).flatten := by
  unfold writeHeaders headerLines
  induction H generalizing buf with
  | nil => simp
  | cons kvs H ih =>
    rw [List.foldl_cons, ih, foldl_writeString]
    simp

/-- C8. For every request line `L` and parsed header map `H` on which
`getTunnelInfo` succeeds, the rebuilt raw header is `L` and `\r\n`, then the
lines `K:V\r\n`, one for each value `V` stored under each key `K` of `H`
(the values of a key in their stored order), then `\r\n`; for
`GET http://example.org/ HTTP/1.1` with the one header `Host: example.org`
it is `GET http://example.org/ HTTP/1.1\r\nHost:example.org\r\n\r\n`. -/
theorem rebuilt_header_keeps_every_header_value :
    (∀ (env : Env) (L : GoString) (H : MIMEHeader) (info : TunnelInfo),
        env.readLine = .ok L → env.readMIMEHeader = .ok H →
        getTunnelInfo env = some info → info.err = none →
        info.rawRequestHeader
          = L ++ str "\r\n"
            ++ (H.flatMap fun kvs => kvs.2.map fun v =>
                  kvs.1 ++ str ":" ++ v ++ str "\r\n").flatten
            ++ str "\r\n")
    ∧ (getTunnelInfo (requestEnv (str "GET http://example.org/ HTTP/1.1")
          [(str "Host", [str "example.org"])])).map (fun info =>
            (info.rawRequestHeader, info.err))
        = some (str "GET http://example.org/ HTTP/1.1\r\nHost:example.org\r\n\r\n", none) := by
  constructor
  · intro env L H info hL hH hinfo herr
    obtain ⟨L2, rl2, u, H2, hL2, _, _, _, hH2, hraw, _, _, _⟩ :=
      getTunnelInfo_success env info hinfo herr
    rw [hL] at hL2
    cases hL2
    rw [hH] at hH2
    cases hH2
    rw [hraw, writeHeaders_eq]
    simp [writeString, headerLines]
  · set_option maxRecDepth 8192 in decide

set_option maxRecDepth 8192 in
theorem rebuilt_header_keeps_every_header_value_witness :
    (requestEnv (str "GET http://example.org/ HTTP/1.1")
        [(str "Cookie", [str "a=1", str "b=2"]), (str "Host", [str "example.org"])]).readLine
      = .ok (str "GET http://example.org/ HTTP/1.1")
    ∧ getTunnelInfo (requestEnv (str "GET http://example.org/ HTTP/1.1")
        [(str "Cookie", [str "a=1", str "b=2"]), (str "Host", [str "example.org"])])
      = some { rawRequestHeader :=
                 str "GET http://example.org/ HTTP/1.1\r\nCookie:a=1\r\nCookie:b=2\r\nHost:example.org\r\n\r\n",
               host := str "example.org:80", credential := [], isHTTPS := false,
               err := none }
    ∧ str "GET http://example.org/ HTTP/1.1\r\nCookie:a=1\r\nCookie:b=2\r\nHost:example.org\r\n\r\n"
      = str "GET http://example.org/ HTTP/1.1" ++ str "\r\n"
          ++ (([(str "Cookie", [str "a=1", str "b=2"]), (str "Host", [str "example.org"])] :
                  MIMEHeader).flatMap fun kvs => kvs.2.map fun v =>
                kvs.1 ++ str ":" ++ v ++ str "\r\n").flatten
          ++ str "\r\n" :=
  ⟨rfl, by decide,
    rebuilt_header_keeps_every_header_value.1
      (requestEnv (str "GET http://example.org/ HTTP/1.1")
        [(str "Cookie", [str "a=1", str "b=2"]), (str "Host", [str "example.org"])])
      (str "GET http://example.org/ HTTP/1.1")
      [(str "Cookie", [str "a=1", str "b=2"]), (str "Host", [str "example.org"])]
      { rawRequestHeader :=
          str "GET http://example.org/ HTTP/1.1\r\nCookie:a=1\r\nCookie:b=2\r\nHost:example.org\r\n\r\n",
        host := str "example.org:80", credential := [], isHTTPS := false, err := none }
      rfl rfl (by decide) rfl⟩

/-! ## conn.go: serve -/

/-- C9. On a server with a non-empty stored credential, when `getTunnelInfo`
succeeds and the extracted credential fails validation, `conn.serve` writes
the 407 response to the client, whether or not that write succeeds, logs and
closes the connection: it never dials the origin. -/
theorem serve_auth_failure_writes_407_and_never_dials (server : Server) (env : Env)
    (info : TunnelInfo) (hcred : server.credential ≠ [])
    (hinfo : getTunnelInfo env = some info) (herr : info.err = none)
    (hval : server.validateCredential info.credential = false) :
    serve server env
        = Event.clientWrite
            (str "HTTP/1.1 407 Proxy Authentication Required\r\nProxy-Authenticate: Basic realm=\"*\"\r\n\r\n")
          :: ((match env.clientWriteErr with
                | some e => [Event.logErrorOf e]
                | none => [])
              ++ [Event.logError (str "Auth fail: " ++ info.credential), Event.clientClose])
      ∧ ∀ network address, Event.dial network address ∉ serve server env := by
  have hauth : auth server env info.credential
      = (false, Event.clientWrite response407 ::
          (match env.clientWriteErr with
            | some e => [Event.logErrorOf e]
            | none => [])) := by
    have hi : server.isAuth = true := by simp [Server.isAuth, hcred]
    simp [auth, hi, hval]
  have hserve : serve server env
      = Event.clientWrite response407
          :: ((match env.clientWriteErr with
                | some e => [Event.logErrorOf e]
                | none => [])
              ++ [Event.logError (str "Auth fail: " ++ info.credential),
                  Event.clientClose]) := by
    unfold serve
    rw [hinfo]
    simp only [herr, hauth]
    simp
  refine ⟨hserve, ?_⟩
  intro network address
  rw [hserve]
  cases env.clientWriteErr <;> simp

set_option maxRecDepth 8192 in
theorem serve_auth_failure_writes_407_and_never_dials_witness :
    (Server.mk (str ":8080") (str "dXNlcjpwYXNz")).credential ≠ []
    ∧ getTunnelInfo (requestEnv (str "GET http://example.org/ HTTP/1.1")
        [(str "Host", [str "example.org"])])
      = some { rawRequestHeader :=
                 str "GET http://example.org/ HTTP/1.1\r\nHost:example.org\r\n\r\n",
               host := str "example.org:80", credential := [], isHTTPS := false,
               err := none }
    ∧ Server.validateCredential (Server.mk (str ":8080") (str "dXNlcjpwYXNz")) [] = false
    ∧ (serve (Server.mk (str ":8080") (str "dXNlcjpwYXNz"))
          (requestEnv (str "GET http://example.org/ HTTP/1.1")
            [(str "Host", [str "example.org"])])
        = Event.clientWrite
            (str "HTTP/1.1 407 Proxy Authentication Required\r\nProxy-Authenticate: Basic realm=\"*\"\r\n\r\n")
          :: ((match (requestEnv (str "GET http://example.org/ HTTP/1.1")
                  [(str "Host", [str "example.org"])]).clientWriteErr with
                | some e => [Event.logErrorOf e]
                | none => [])
              ++ [Event.logError (str "Auth fail: " ++ []), Event.clientClose])
      ∧ ∀ network address, Event.dial network address
          ∉ serve (Server.mk (str ":8080") (str "dXNlcjpwYXNz"))
              (requestEnv (str "GET http://example.org/ HTTP/1.1")
                [(str "Host", [str "example.org"])])) :=
  ⟨by decide, by decide, by decide,
    serve_auth_failure_writes_407_and_never_dials
      (Server.mk (str ":8080") (str "dXNlcjpwYXNz"))
      (requestEnv (str "GET http://example.org/ HTTP/1.1") [(str "Host", [str "example.org"])])
      { rawRequestHeader := str "GET http://example.org/ HTTP/1.1\r\nHost:example.org\r\n\r\n",
        host := str "example.org:80", credential := [], isHTTPS := false, err := none }
      (by decide) (by decide) rfl (by decide)⟩

/-! ## net/url on a target `name:port` behind `http://` -/

set_option maxRecDepth 100000 in
theorem hostPortByte_props : ∀ c : Byte, (isHostNameByte c || isDigit c || c == 58) = true →
    c ≠ 63 ∧ c ≠ 47 ∧ c ≠ 64 ∧ c ≠ 37 ∧ c ≠ 32 ∧ ¬ (c.val < 32 || c.val = 127) = true
      ∧ shouldEscapeHost c = false := by
  decide

set_option maxRecDepth 100000 in
theorem hostNameByte_props : ∀ c : Byte, isHostNameByte c = true → c ≠ 58 ∧ c ≠ 91 := by
  decide

set_option maxRecDepth 100000 in
theorem digit_ne_colon : ∀ c : Byte, isDigit c = true → c ≠ 58 := by
  decide

theorem unescape_host_id (s : GoString)
    (h : ∀ c ∈ s, c ≠ 37 ∧ shouldEscapeHost c = false) :
    unescape .encodeHost s = .ok s := by
  induction s with
  | nil => rfl
  | cons c t ih =>
    have hc := h c (List.mem_cons_self c t)
    have ht := ih (fun x hx => h x (List.mem_cons_of_mem c hx))
    unfold unescape
    simp [hc.1, hc.2, ht]

theorem stringsLastIndex_last (b : Byte) (l r : GoString) (h : b ∉ r) :
    stringsLastIndex (l ++ b :: r) [b] = l.length := by
  induction l with
  | nil => simp [stringsLastIndex, stringsLastIndex_not_mem b r h, List.isPrefixOf]
  | cons c t ih =>
    have n : (0 : Int) ≤ (t.length : Int) := by omega
    rw [List.cons_append, stringsLastIndex, ih]
    simp [n]

/-- The bytes of a target `name:port`. -/
theorem hostPort_bytes (name port : GoString) (hn : ∀ c ∈ name, isHostNameByte c = true)
    (hp : ∀ c ∈ port, isDigit c = true) :
    ∀ c ∈ name ++ COLON :: port, (isHostNameByte c || isDigit c || c == 58) = true := by
  intro c hc
  simp only [List.mem_append, List.mem_cons] at hc
  rcases hc with h | h | h
  · simp [hn c h]
  · subst h
    decide
  · simp [hp c h]

theorem str_http : str "http://" = [104, 116, 116, 112, 58, 47, 47] := by decide

theorem parseHost_host_port (name port : GoString) (hne : name ≠ [])
    (hn : ∀ c ∈ name, isHostNameByte c = true) (hp : ∀ c ∈ port, isDigit c = true) :
    parseHost (name ++ COLON :: port) = .ok (name ++ COLON :: port) := by
  have hb := fun c hc => hostPortByte_props c (hostPort_bytes name port hn hp c hc)
  have hcp : COLON ∉ port := fun hm => digit_ne_colon COLON (hp COLON hm) rfl
  have e1 : stringsHasPrefix (name ++ COLON :: port) (str "[") = false := by
    match name, hne, hn with
    | c :: t, _, hn =>
      have := (hostNameByte_props c (hn c (List.mem_cons_self c t))).2
      have e : str "[" = [91] := by decide
      rw [stringsHasPrefix, e]
      simp [List.isPrefixOf, Ne.symm this]
  have e2 : stringsLastIndex (name ++ COLON :: port) (str ":") = name.length := by
    rw [str_colon]
    exact stringsLastIndex_last COLON name port hcp
  have e3 : validOptionalPort (List.drop name.length (name ++ COLON :: port)) = true := by
    rw [List.drop_left]
    simp only [validOptionalPort, List.all_eq_true, Bool.and_eq_true, decide_eq_true_eq]
    exact ⟨rfl, hp⟩
  have e4 : unescape .encodeHost (name ++ COLON :: port) = .ok (name ++ COLON :: port) :=
    unescape_host_id _ (fun c hc => ⟨(hb c hc).2.2.2.1, (hb c hc).2.2.2.2.2.2⟩)
  unfold parseHost
  rw [e1]
  simp only [Bool.false_eq_true, if_false, e2, Int.toNat_ofNat, e3, Bool.not_true, and_false, e4]

theorem parseAuthority_host_port (name port : GoString) (hne : name ≠ [])
    (hn : ∀ c ∈ name, isHostNameByte c = true) (hp : ∀ c ∈ port, isDigit c = true) :
    parseAuthority (name ++ COLON :: port) = .ok (name ++ COLON :: port) := by
  have hb := fun c hc => hostPortByte_props c (hostPort_bytes name port hn hp c hc)
  have hat : (64 : Byte) ∉ name ++ COLON :: port := fun hm => (hb 64 hm).2.2.1 rfl
  have e : str "@" = [64] := by decide
  unfold parseAuthority
  rw [e, stringsLastIndex_not_mem 64 _ hat]
  simp [parseHost_host_port name port hne hn hp]

/-- The model of `net/url` on a target `name:port` behind `http://`, where
`name` is a non-empty string of letters, digits, `-` and `.` and `port` a
string of digits: the host component is the whole target. -/
theorem urlParseRequestURI_host_port (name port : GoString) (hne : name ≠ [])
    (hn : ∀ c ∈ name, isHostNameByte c = true) (hp : ∀ c ∈ port, isDigit c = true) :
    urlParseRequestURI (str "http://" ++ (name ++ COLON :: port))
      = .ok { Scheme := str "http", Host := name ++ COLON :: port } := by
  have hb := fun c hc => hostPortByte_props c (hostPort_bytes name port hn hp c hc)
  have hq : (63 : Byte) ∉ (47 : Byte) :: 47 :: (name ++ COLON :: port) := by
    intro hm
    simp only [List.mem_cons] at hm
    rcases hm with h | h | h
    · exact absurd h (by decide)
    · exact absurd h (by decide)
    · exact (hb 63 h).1 rfl
  have hs : (47 : Byte) ∉ name ++ COLON :: port := fun hm => (hb 47 hm).2.1 rfl
  have e1 : stringContainsCTLByte (str "http://" ++ (name ++ COLON :: port)) = false := by
    unfold stringContainsCTLByte
    rw [List.any_append, Bool.or_eq_false_iff]
    refine ⟨by decide, ?_⟩
    rw [List.any_eq_false]
    intro c hc
    exact (hb c hc).2.2.2.2.2.1
  have e2 : getScheme (str "http://" ++ (name ++ COLON :: port))
      = .ok (str "http", 47 :: 47 :: (name ++ COLON :: port)) := by
    rfl
  have e3 : asciiToLower (str "http") = str "http" := by decide
  have eq : str "?" = [63] := by decide
  have e4 : stringsCount (47 :: 47 :: (name ++ COLON :: port)) (str "?") = 0 := by
    rw [eq, stringsCount_single, count_eq_zero_of_not_mem 63 _ hq]
  have e5 : stringsCut (47 :: 47 :: (name ++ COLON :: port)) (str "?")
      = (47 :: 47 :: (name ++ COLON :: port), []) := by
    unfold stringsCut
    rw [eq, stringsIndex_not_mem 63 _ hq]
    simp
  have e6 : stringsHasPrefix (47 :: 47 :: (name ++ COLON :: port)) (str "/") = true := by
    have e : str "/" = [47] := by decide
    rw [stringsHasPrefix, e]
    simp [List.isPrefixOf]
  have e7 : stringsHasPrefix (47 :: 47 :: (name ++ COLON :: port)) (str "//") = true := by
    have e : str "//" = [47, 47] := by decide
    rw [stringsHasPrefix, e]
    simp [List.isPrefixOf]
  have e8 : stringsIndex (name ++ COLON :: port) (str "/") = -1 := by
    have e : str "/" = [47] := by decide
    rw [e]
    exact stringsIndex_not_mem 47 _ hs
  have e9 : unescape .encodePath [] = .ok [] := rfl
  have e10 : str "http://" ++ (name ++ COLON :: port) ≠ [] := by
    rw [str_http]
    simp
  have e11 : str "http://" ++ (name ++ COLON :: port) ≠ str "*" := by
    rw [str_http]
    have e : str "*" = [42] := by decide
    rw [e]
    simp
  have e12 : str "http" ≠ [] := by decide
  have e13 : (stringsHasSuffix (47 :: 47 :: (name ++ COLON :: port)) (str "?")
      && stringsCount (47 :: 47 :: (name ++ COLON :: port)) (str "?") == 1) = false := by
    rw [e4]
    simp
  unfold urlParseRequestURI parse
  rw [e1]
  simp only [Bool.false_eq_true, if_false, e10, false_and, e11, e2, e3, e13, e5, e12]
  simp [e6, e7, e8, parseAuthority_host_port name port hne hn hp, e9, e12]

/-- On every request line `CONNECT name:port proto`, with `name` a non-empty
string of letters, digits, `-` and `.` and `port` a string of digits, and
every header map, `getTunnelInfo` with the model of `net/url` succeeds, sets
the HTTPS flag and gives the target `name:port` as the destination. -/
theorem getTunnelInfo_connect_host_port (name port proto : GoString) (H : MIMEHeader)
    (hne : name ≠ []) (hn : ∀ c ∈ name, isHostNameByte c = true)
    (hp : ∀ c ∈ port, isDigit c = true) :
    getTunnelInfo
        (requestEnv (str "CONNECT" ++ SP :: ((name ++ COLON :: port) ++ SP :: proto)) H)
      = some
          { rawRequestHeader :=
              str "CONNECT" ++ SP :: ((name ++ COLON :: port) ++ SP :: proto) ++ str "\r\n"
                ++ (H.flatMap fun kvs => kvs.2.map fun v =>
                      kvs.1 ++ str ":" ++ v ++ str "\r\n").flatten
                ++ str "\r\n",
            host := name ++ COLON :: port,
            credential := H.Get (str "Proxy-Authorization"),
            isHTTPS := true,
            err := none } := by
  have hb := fun c hc => hostPortByte_props c (hostPort_bytes name port hn hp c hc)
  have h1 : SP ∉ str "CONNECT" := by decide
  have h2 : SP ∉ name ++ COLON :: port := fun hm => (hb SP hm).2.2.2.2.1 rfl
  have hc : COLON ∈ name ++ COLON :: port := by simp
  have hne2 : name ++ COLON :: port ≠ [] := by simp
  have hidx : stringsIndex (name ++ COLON :: port) (str ":") ≠ -1 :=
    fun e => (stringsIndex_colon_iff _).mp e hc
  unfold getTunnelInfo
  simp only [requestEnv, parseRequestLine_two_spaces _ _ proto h1 h2, Bool.not_true,
    Bool.false_eq_true, if_false, if_true, urlParseRequestURI_host_port name port hne hn hp,
    hne2, hidx, writeHeaders_eq, writeString, headerLines]
  simp

end GoProxy
